import Mathlib

/-!
# file-share: signaling server (`src/server.js`)

A shallow embedding of the session registry, the fallback blob store, the
relay hub and the sweeper of `src/server.js`, followed by the properties
proved about them.

Conventions of the embedding

* A JavaScript `Map` is an insertion-ordered association list with unique
  keys (`mapGet`, `mapHas`, `mapSet`, `mapDelete`).
* `Date.now()` is an input of every operation that reads the clock (a
  natural number of milliseconds); an operation that reads the clock twice
  takes two readings.
* `Math.random()` is an input: the draw `k` stands for the double
  `(k % 2^53) / 2^53`, which lies in `[0, 1)`.  `uuidv4()` is an input too.
* A non-negative double below `2^14` is written as its numerator over `2^53`;
  every arithmetic operation on doubles rounds its exact result to the nearest
  double, ties to even (`roundDouble`).
* A `Set` of WebSocket clients is a mutable object: the state holds a heap of
  sets, `SESSION_TO_PEERS` maps a session id to a heap address, and the
  closure variable `peers` of a connection is a heap address.
* Request fields are strings when present (`none` is `undefined`); a string is
  a sequence of Unicode scalar values, so it holds no lone surrogate.
-/

namespace FileShare

/-! ## JavaScript `Map` -/

/-- The method `Map.prototype.get`: the value bound to `k`, if any. -/
def mapGet {β : Type} : List (String × β) → String → Option β
  | [], _ => none
  | (k', v) :: m, k => if k' = k then some v else mapGet m k

/-- The method `Map.prototype.has`. -/
def mapHas {β : Type} (m : List (String × β)) (k : String) : Bool :=
  (mapGet m k).isSome

/-- The method `Map.prototype.set`: an existing key keeps its position, a new key
goes last. -/
def mapSet {β : Type} : List (String × β) → String → β → List (String × β)
  | [], k, v => [(k, v)]
  | (k', w) :: m, k, v => if k' = k then (k, v) :: m else (k', w) :: mapSet m k v

/-- The method `Map.prototype.delete`. -/
def mapDelete {β : Type} : List (String × β) → String → List (String × β)
  | [], _ => []
  | (k', w) :: m, k => if k' = k then mapDelete m k else (k', w) :: mapDelete m k

/-! ## Values carried by the stores -/

/-- The result of `JSON.parse` on a relayed frame. -/
inductive Json where
  | null : Json
  | bool : Bool → Json
  | num : Int → Json
  | str : String → Json
  | arr : List Json → Json
  | obj : List (String × Json) → Json

/-- An entry of `UPLOAD_STORE`: `{ filename, mime, data, size }`. -/
structure Blob where
  filename : String
  mime : String
  data : List Nat
  size : Nat
  deriving DecidableEq, Repr

/-- A WebSocket client `ws`: the session id and the `peers` set captured by its
handlers, its `readyState`, and the frames handed to `ws.send` so far. -/
structure Conn where
  sessionId : String
  peers : Nat
  readyState : Nat
  sent : List Json

/-- The mutable state of the server process. -/
structure State where
  CODE_TO_SESSION : List (String × String)
  SESSION_TO_PEERS : List (String × Nat)
  SESSION_EXPIRY : List (String × Nat)
  UPLOAD_STORE : List (String × Blob)
  sets : List (List Nat)
  conns : List Conn

/-- The state at process start: every store is empty. -/
def State.init : State :=
  { CODE_TO_SESSION := [], SESSION_TO_PEERS := [], SESSION_EXPIRY := [],
    UPLOAD_STORE := [], sets := [], conns := [] }

/-- The constant `CODE_EXPIRY_MS = 1000 * 60 * 15`. -/
def CODE_EXPIRY_MS : Nat := 1000 * 60 * 15

/-- The constant `MAX_BYTES = 5 * 1024 * 1024`. -/
def MAX_BYTES : Nat := 5 * 1024 * 1024

/-- The test `!exp || exp < now` applied to `SESSION_EXPIRY.get(sessionId)`:
`undefined` and `0` are falsy. -/
def expiredAt (exp : Option Nat) (now : Nat) : Bool :=
  match exp with
  | none => true
  | some e => e == 0 || decide (e < now)

/-! ## Session registry -/

/-- The number of binary digits of `n`, computed with `fuel` halvings. -/
def bitLength : Nat → Nat → Nat
  | 0, _ => 0
  | fuel + 1, n => if n = 0 then 0 else bitLength fuel (n / 2) + 1

/-- The multiple of `d` nearest to `n`; of two nearest multiples the even one. -/
def roundNearestEven (d n : Nat) : Nat :=
  if 2 * (n % d) < d then n / d * d
  else if d < 2 * (n % d) then (n / d + 1) * d
  else if n / d % 2 = 0 then n / d * d else (n / d + 1) * d

/-- The double nearest to `n / 2^53`, as a numerator over `2^53`: a double has
53 significant binary digits, so a numerator of more digits is rounded to a
multiple of the power of two that leaves 53 of them. -/
def roundDouble (n : Nat) : Nat :=
  roundNearestEven (2 ^ (bitLength n n - 53)) n

/-- The number `Math.floor(1000 + Math.random() * 9000)` for the draw `k`, that
is for `Math.random() = (k % 2^53) / 2^53`: the product is rounded to a
double, the sum is rounded to a double, and the floor is taken. -/
def codeValue (k : Nat) : Nat :=
  roundDouble (1000 * 2 ^ 53 + roundDouble ((k % 2 ^ 53) * 9000)) / 2 ^ 53

/-- The function `generateCode`: `String(Math.floor(1000 + Math.random() * 9000))`
for the draw `k`. -/
def generateCode (k : Nat) : String :=
  toString (codeValue k)

/-- The loop `do { code = generateCode(); } while (CODE_TO_SESSION.has(code))`
run for at most `fuel` iterations from draw number `i`; `none` when the loop
is still running after `fuel` iterations. -/
def pickCode (codes : List (String × String)) (draws : Nat → Nat) : Nat → Nat → Option String
  | 0, _ => none
  | fuel + 1, i =>
    let code := generateCode (draws i)
    if mapHas codes code then pickCode codes draws fuel (i + 1) else some code

/-- The function `createSession`: returns the new state, the code and the session id, or
`none` when the retry loop has not ended within `fuel` iterations. -/
def createSession (st : State) (draws : Nat → Nat) (uuid : String) (now : Nat) (fuel : Nat) :
    Option (State × String × String) :=
  match pickCode st.CODE_TO_SESSION draws fuel 0 with
  | none => none
  | some code =>
    some ({ st with
            CODE_TO_SESSION := mapSet st.CODE_TO_SESSION code uuid
            SESSION_EXPIRY := mapSet st.SESSION_EXPIRY uuid (now + CODE_EXPIRY_MS) },
          code, uuid)

/-- The JavaScript test `!s` on a request field that is a string when present. -/
def jsFalsy (s : Option String) : Bool :=
  match s with
  | none => true
  | some v => v == ""

/-- The response of `POST /api/session`. -/
inductive SessionResponse where
  | invalidAction : SessionResponse
  | created (code sessionId : String) (expiresInSec : Nat) : SessionResponse

/-- The handler of `POST /api/session` (the QR image and the join URL are
rendered by external collaborators and are left out of the response). -/
def postSession (st : State) (action : Option String) (draws : Nat → Nat) (uuid : String)
    (now : Nat) (fuel : Nat) : Option (State × SessionResponse) :=
  if action ≠ some "create" then some (st, .invalidAction)
  else
    match createSession st draws uuid now fuel with
    | none => none
    | some (st1, code, sessionId) =>
      some (st1, .created code sessionId (CODE_EXPIRY_MS / 1000))

/-- The response of `POST /api/resolve`. -/
inductive ResolveResponse where
  | notFound : ResolveResponse
  | gone : ResolveResponse
  | ok (sessionId : String) (expiresInSec : Int) : ResolveResponse

/-- The HTTP status of a resolve response. -/
def ResolveResponse.status : ResolveResponse → Nat
  | .notFound => 404
  | .gone => 410
  | .ok _ _ => 200

/-- The `sessionId` field of a resolve response, if it has one. -/
def ResolveResponse.sessionId : ResolveResponse → Option String
  | .ok s _ => some s
  | _ => none

/-- The handler of `POST /api/resolve`; `now1` and `now2` are the two readings
of `Date.now()`, in the order the handler takes them. -/
def resolve (st : State) (code : Option String) (now1 now2 : Nat) : State × ResolveResponse :=
  match code with
  | none => (st, .notFound)
  | some c =>
    if c = "" ∨ mapHas st.CODE_TO_SESSION c = false then (st, .notFound)
    else
      match mapGet st.CODE_TO_SESSION c with
      | none => (st, .notFound)
      | some sessionId =>
        let exp := mapGet st.SESSION_EXPIRY sessionId
        if expiredAt exp now1 then (st, .gone)
        else (st, .ok sessionId ((((exp.getD 0 : Nat) : Int) - (now2 : Int)) / 1000))

/-! ## Fallback blob store -/

/-- The limit `"6mb"` of `express.json` and `express.urlencoded`, in bytes. -/
def BODY_LIMIT : Nat := 6 * 1024 * 1024

/-- The fields the upload handler reads from `req.body || {}`. -/
structure UploadBody where
  sessionId : Option String
  filename : Option String
  mime : Option String
  dataB64 : Option String

/-- A `POST /api/upload` request: the size in bytes of the body that the body
parser reads (nothing is read, and no field is present, when the content type
is neither JSON nor URL-encoded) and the fields parsed from it. -/
structure UploadRequest where
  bodyBytes : Nat
  body : UploadBody

/-- The raw body holds the text of `dataB64`, so it is at least as long. -/
def UploadRequest.wellFormed (req : UploadRequest) : Prop :=
  ∀ d, req.body.dataB64 = some d → d.length ≤ req.bodyBytes

/-- The response of `POST /api/upload`; `entityTooLarge` is the rejection by
the body parser, before the handler runs. -/
inductive UploadResponse where
  | entityTooLarge : UploadResponse
  | missingFields : UploadResponse
  | expired : UploadResponse
  | tooLarge : UploadResponse
  | ok (size : Nat) : UploadResponse
  deriving DecidableEq, Repr

/-- The HTTP status of an upload response. -/
def UploadResponse.status : UploadResponse → Nat
  | .entityTooLarge => 413
  | .missingFields => 400
  | .expired => 410
  | .tooLarge => 413
  | .ok _ => 200

/-- The handler of `POST /api/upload`; `b64` is `Buffer.from(·, "base64")`. -/
def uploadHandler (b64 : String → List Nat) (st : State) (body : UploadBody) (now : Nat) :
    State × UploadResponse :=
  if jsFalsy body.sessionId || jsFalsy body.filename || jsFalsy body.dataB64 then
    (st, .missingFields)
  else
    let sessionId := body.sessionId.getD ""
    let exp := mapGet st.SESSION_EXPIRY sessionId
    if expiredAt exp now then (st, .expired)
    else
      let buf := b64 (body.dataB64.getD "")
      if buf.length > MAX_BYTES then (st, .tooLarge)
      else
        let mime := if jsFalsy body.mime then "application/octet-stream" else body.mime.getD ""
        ({ st with
           UPLOAD_STORE := mapSet st.UPLOAD_STORE sessionId
             { filename := body.filename.getD "", mime := mime, data := buf, size := buf.length } },
         .ok buf.length)

/-- The route `POST /api/upload`: the body parser with its size limit, then the
handler. -/
def postUpload (b64 : String → List Nat) (st : State) (req : UploadRequest) (now : Nat) :
    State × UploadResponse :=
  if req.bodyBytes > BODY_LIMIT then (st, .entityTooLarge)
  else uploadHandler b64 st req.body now

/-- The value of a character of the base64 alphabets (standard and URL-safe). -/
def sextet (c : Char) : Option Nat :=
  if 'A' ≤ c ∧ c ≤ 'Z' then some (c.toNat - 65)
  else if 'a' ≤ c ∧ c ≤ 'z' then some (c.toNat - 71)
  else if '0' ≤ c ∧ c ≤ '9' then some (c.toNat + 4)
  else if c = '+' ∨ c = '-' then some 62
  else if c = '/' ∨ c = '_' then some 63
  else none

/-- Four six-bit values make three bytes; a last group of three makes two
bytes, of two makes one. -/
def packSextets : List Nat → List Nat
  | a :: b :: c :: d :: rest =>
    (a * 4 + b / 16) :: ((b % 16) * 16 + c / 4) :: ((c % 4) * 64 + d) :: packSextets rest
  | [a, b, c] => [a * 4 + b / 16, (b % 16) * 16 + c / 4]
  | [a, b] => [a * 4 + b / 16]
  | _ => []

/-- A decoder for `Buffer.from(s, "base64")` on texts of ASCII characters:
characters outside the alphabets are skipped and the first `=` ends the data.
The handlers take the decoder as a parameter; this one is used, on ASCII
texts only, where a concrete decoder is needed. -/
def base64Decode (s : String) : List Nat :=
  packSextets ((s.data.takeWhile (fun c => c != '=')).filterMap sextet)

/-- The character of the standard base64 alphabet for the six-bit value `v`. -/
def alphabetChar (v : Nat) : Char :=
  if v < 26 then Char.ofNat (65 + v)
  else if v < 52 then Char.ofNat (71 + v)
  else if v < 62 then Char.ofNat (v - 4)
  else if v = 62 then '+' else '/'

/-- The characters of the base64 text of a list of bytes, with padding. -/
def encodeChars : List Nat → List Char
  | a :: b :: c :: rest =>
    alphabetChar (a / 4) :: alphabetChar ((a % 4) * 16 + b / 16) ::
      alphabetChar ((b % 16) * 4 + c / 64) :: alphabetChar (c % 64) :: encodeChars rest
  | [a, b] => [alphabetChar (a / 4), alphabetChar ((a % 4) * 16 + b / 16),
      alphabetChar ((b % 16) * 4), '=']
  | [a] => [alphabetChar (a / 4), alphabetChar ((a % 4) * 16), '=', '=']
  | [] => []

/-- The base64 text of a list of bytes, as the client computes it with `btoa`. -/
def base64Encode (payload : List Nat) : String :=
  String.mk (encodeChars payload)

/-- The upper-case hexadecimal digit of `n < 16`. -/
def hexDigit (n : Nat) : Char :=
  if n < 10 then Char.ofNat (48 + n) else Char.ofNat (55 + n)

/-- The characters `encodeURIComponent` leaves as they are. -/
def uriUnreserved (c : Char) : Bool :=
  c.isAlphanum || c ∈ ['-', '_', '.', '!', '~', '*', Char.ofNat 39, '(', ')']

/-- The function `encodeURIComponent`: every other character becomes the percent-encoding
of its UTF-8 bytes.  A string here is a sequence of Unicode scalar values, so
it holds no lone surrogate, the one input on which the function throws. -/
def encodeURIComponent (s : String) : String :=
  String.mk (s.data.flatMap fun c =>
    if uriUnreserved c then [c]
    else (String.utf8EncodeChar c).flatMap fun b =>
      ['%', hexDigit (b.toNat / 16), hexDigit (b.toNat % 16)])

/-- The response of `GET /api/download/:sessionId`; `serverError` is the answer
of the framework when the handler throws. -/
inductive DownloadResponse where
  | notFound : DownloadResponse
  | serverError : DownloadResponse
  | file (contentType contentDisposition : String) (body : List Nat) : DownloadResponse
  deriving DecidableEq, Repr

/-- The HTTP status of a download response. -/
def DownloadResponse.status : DownloadResponse → Nat
  | .notFound => 404
  | .serverError => 500
  | .file _ _ _ => 200

/-- The header value `attachment; filename="${encodeURIComponent(file.filename)}"`. -/
def contentDisposition (filename : String) : String :=
  "attachment; filename=\"" ++ encodeURIComponent filename ++ "\""

/-- The `Content-Type` header of a download response, if it has one. -/
def DownloadResponse.contentType : DownloadResponse → Option String
  | .file t _ _ => some t
  | _ => none

/-- The test of `res.setHeader` on a header value: every character is a tab or
lies in `\x20-\x7e` or in `\x80-\xff`; on any other character `setHeader`
throws. -/
def headerValueOk (v : String) : Bool :=
  v.data.all fun c =>
    c.toNat == 9 || (32 ≤ c.toNat && c.toNat ≤ 126) || (128 ≤ c.toNat && c.toNat ≤ 255)

/-- The handler of `GET /api/download/:sessionId`.  The first `res.setHeader`
throws when the stored MIME type is not a header value and the request is
answered 500; the value of `Content-Disposition` is made of characters that
`encodeURIComponent` produces and is always a header value. -/
def download (st : State) (sessionId : String) : State × DownloadResponse :=
  match mapGet st.UPLOAD_STORE sessionId with
  | none => (st, .notFound)
  | some file =>
    if headerValueOk file.mime then
      (st, .file file.mime (contentDisposition file.filename) file.data)
    else (st, .serverError)

/-! ## Sweeper -/

/-- One iteration of the loop of `cleanExpired`, on the entry `(code, sessionId)`. -/
def sweepEntry (now : Nat) (st : State) (e : String × String) : State :=
  if expiredAt (mapGet st.SESSION_EXPIRY e.2) now then
    { st with
      CODE_TO_SESSION := mapDelete st.CODE_TO_SESSION e.1
      SESSION_EXPIRY := mapDelete st.SESSION_EXPIRY e.2
      SESSION_TO_PEERS := mapDelete st.SESSION_TO_PEERS e.2
      UPLOAD_STORE := mapDelete st.UPLOAD_STORE e.2 }
  else st

/-- The function `cleanExpired`: the loop visits the entries of `CODE_TO_SESSION` in
insertion order and deletes only the entry it is visiting. -/
def cleanExpired (st : State) (now : Nat) : State :=
  st.CODE_TO_SESSION.foldl (sweepEntry now) st

/-! ## Relay hub -/

/-- The method `Set.prototype.add`. -/
def setAdd (ws : Nat) (s : List Nat) : List Nat :=
  if ws ∈ s then s else s ++ [ws]

/-- The method `Set.prototype.delete`. -/
def setDelete (ws : Nat) (s : List Nat) : List Nat :=
  s.filter (fun x => decide (x ≠ ws))

/-- The outcome of an `upgrade` request. -/
inductive UpgradeResult where
  | destroyed : UpgradeResult
  | aborted : UpgradeResult
  | connected (ws : Nat) : UpgradeResult
  deriving DecidableEq, Repr

/-- The `connection` handler up to the registration of the handlers: the new
client is `ws = conns.length`, its transport is open. -/
def connection (st : State) (sessionId : String) : State × Nat :=
  let ws := st.conns.length
  let st1 : State :=
    if mapHas st.SESSION_TO_PEERS sessionId then st
    else { st with
           sets := st.sets ++ [[]]
           SESSION_TO_PEERS := mapSet st.SESSION_TO_PEERS sessionId st.sets.length }
  let peers := (mapGet st1.SESSION_TO_PEERS sessionId).getD 0
  ({ st1 with
     sets := st1.sets.set peers (setAdd ws (st1.sets.getD peers []))
     conns := st1.conns ++ [{ sessionId := sessionId, peers := peers, readyState := 1, sent := [] }] },
   ws)

/-- The `upgrade` handler; `handshakeOk` tells whether `wss.handleUpgrade`
accepts the handshake and calls back. -/
def upgrade (st : State) (pathname : String) (sessionId : Option String) (handshakeOk : Bool)
    (now : Nat) : State × UpgradeResult :=
  if pathname ≠ "/ws" then (st, .destroyed)
  else
    let exp := match sessionId with
      | none => none
      | some s => mapGet st.SESSION_EXPIRY s
    if jsFalsy sessionId || expiredAt exp now then (st, .destroyed)
    else if handshakeOk then
      let r := connection st (sessionId.getD "")
      (r.1, .connected r.2)
    else (st, .aborted)

/-- One iteration of the loop of `broadcast` on the member `ws`: the frame is
handed to `ws.send` when `ws` is not the excluded client and its transport is
open. -/
def deliver (msgObj : Json) (exclude : Nat) (conns : List Conn) (ws : Nat) : List Conn :=
  match conns.get? ws with
  | none => conns
  | some c =>
    if ws ≠ exclude ∧ c.readyState = 1 then conns.set ws { c with sent := c.sent ++ [msgObj] }
    else conns

/-- The function `broadcast(sessionId, msgObj, exclude)`; a recorded frame `msgObj` stands
for the text `JSON.stringify(msgObj)`. -/
def broadcast (st : State) (sessionId : String) (msgObj : Json) (exclude : Nat) : State :=
  match mapGet st.SESSION_TO_PEERS sessionId with
  | none => st
  | some peers => { st with conns := (st.sets.getD peers []).foldl (deliver msgObj exclude) st.conns }

/-- The property read `msg?.type`. -/
def msgType : Json → Option Json
  | .obj fields => mapGet fields "type"
  | _ => none

/-- The test `["offer", "answer", "candidate", "ready"].includes(type)`. -/
def isSignal (type : Option Json) : Bool :=
  match type with
  | some (.str s) => decide (s ∈ ["offer", "answer", "candidate", "ready"])
  | _ => false

/-- The `message` handler of client `ws`; `parsed` is the outcome of
`JSON.parse(raw)`, `none` when it throws. -/
def onMessage (st : State) (ws : Nat) (parsed : Option Json) : State :=
  match st.conns.get? ws, parsed with
  | some c, some msg => if isSignal (msgType msg) then broadcast st c.sessionId msg ws else st
  | _, _ => st

/-- The `close` handler of client `ws`, run when its transport has closed. -/
def onClose (st : State) (ws : Nat) : State :=
  match st.conns.get? ws with
  | none => st
  | some c =>
    let sets1 := st.sets.set c.peers (setDelete ws (st.sets.getD c.peers []))
    { st with
      sets := sets1
      SESSION_TO_PEERS :=
        if (sets1.getD c.peers []).length = 0 then mapDelete st.SESSION_TO_PEERS c.sessionId
        else st.SESSION_TO_PEERS
      conns := st.conns.set ws { c with readyState := 3 } }

/-! ## The server as a transition system -/

/-- What the process reacts to, with the inputs each reaction reads. -/
inductive Event where
  | session (action : Option String) (draws : Nat → Nat) (uuid : String) (now fuel : Nat) : Event
  | resolve (code : Option String) (now1 now2 : Nat) : Event
  | upload (req : UploadRequest) (now : Nat) : Event
  | download (sessionId : String) : Event
  | sweep (now : Nat) : Event
  | upgrade (pathname : String) (sessionId : Option String) (handshakeOk : Bool) (now : Nat) : Event
  | message (ws : Nat) (parsed : Option Json) : Event
  | closing (ws : Nat) : Event
  | close (ws : Nat) : Event

/-- The `readyState` of client `ws`, `3` (closed) for a client that does not exist. -/
def readyStateOf (st : State) (ws : Nat) : Nat :=
  match st.conns.get? ws with
  | none => 3
  | some c => c.readyState

/-- The transport of client `ws` starts closing: `readyState` becomes `2`. -/
def startClosing (st : State) (ws : Nat) : State :=
  match st.conns.get? ws with
  | none => st
  | some c => { st with conns := st.conns.set ws { c with readyState := 2 } }

/-- One reaction.  `none` when `createSession` is still looping after `fuel`
iterations.  A client emits `message` and `close` only until it has closed,
and `close` once. -/
def step (b64 : String → List Nat) (st : State) : Event → Option State
  | .session action draws uuid now fuel => (postSession st action draws uuid now fuel).map (·.1)
  | .resolve code now1 now2 => some (resolve st code now1 now2).1
  | .upload req now => some (postUpload b64 st req now).1
  | .download sessionId => some (download st sessionId).1
  | .sweep now => some (cleanExpired st now)
  | .upgrade pathname sessionId handshakeOk now => some (upgrade st pathname sessionId handshakeOk now).1
  | .message ws parsed => some (if readyStateOf st ws = 3 then st else onMessage st ws parsed)
  | .closing ws => some (if readyStateOf st ws = 1 then startClosing st ws else st)
  | .close ws => some (if readyStateOf st ws = 3 then st else onClose st ws)

/-- A sequence of reactions, in order. -/
def run (b64 : String → List Nat) : State → List Event → Option State
  | st, [] => some st
  | st, e :: es =>
    match step b64 st e with
    | none => none
    | some st1 => run b64 st1 es

/-- The states the process can be in. -/
def Reachable (b64 : String → List Nat) (st : State) : Prop :=
  ∃ es, run b64 State.init es = some st

/-- The reaction is a successful or pending `createSession` whose `uuidv4()`
returns `sid`. -/
def Event.issues (sid : String) : Event → Prop
  | .session _ _ uuid _ _ => uuid = sid
  | _ => False

/-- Nothing is left of session `sid`: no code is bound to it and it has no
expiry entry, no peer set and no blob. -/
def Dead (st : State) (sid : String) : Prop :=
  (∀ (c : String), mapGet st.CODE_TO_SESSION c ≠ some sid) ∧
  mapGet st.SESSION_EXPIRY sid = none ∧
  mapGet st.SESSION_TO_PEERS sid = none ∧
  mapGet st.UPLOAD_STORE sid = none

/-- A code map in which every code of the code space `1000 .. 9999` is bound,
code `1000 + i` to session `s<i>`. -/
def fullCodes : List (String × String) :=
  (List.range 9000).map (fun i => (toString (1000 + i), "s" ++ toString i))

/-- A state whose code map is `fullCodes`. -/
def fullState : State :=
  { State.init with CODE_TO_SESSION := fullCodes }

/-- A string of exactly four decimal digits. -/
def isFourDigits (s : String) : Prop :=
  s.data.length = 4 ∧ ∀ c ∈ s.data, c.isDigit = true

instance (s : String) : Decidable (isFourDigits s) := by
  unfold isFourDigits; infer_instance

/-! ## Invariants and notions used in the proofs -/

/-- The registry part of a state: the code map and the expiry map. -/
def registryOf (st : State) : List (String × String) × List (String × Nat) :=
  (st.CODE_TO_SESSION, st.SESSION_EXPIRY)

/-- Every key of `CODE_TO_SESSION` is a string of four decimal digits. -/
def CodesWellFormed (st : State) : Prop :=
  ∀ c, mapGet st.CODE_TO_SESSION c ≠ none → isFourDigits c

/-- What `broadcast` does to a client that receives the frame. -/
def received (msg : Json) (c : Conn) : Conn :=
  { c with sent := c.sent ++ [msg] }

/-- The part of a client that `broadcast` never changes. -/
def Conn.wiring (c : Conn) : String × Nat × Nat :=
  (c.sessionId, c.peers, c.readyState)

/-- Every set of the heap lists its members once, and every member of the set
at address `i` is an existing client that captured that set and has not
closed. -/
def RelayInvOn (sets : List (List Nat)) (conns : List Conn) : Prop :=
  (∀ (i : Nat) (l : List Nat), sets[i]? = some l → l.Nodup) ∧
  (∀ (i : Nat) (l : List Nat) (W : Nat), sets[i]? = some l → W ∈ l →
    ∃ c, conns[W]? = some c ∧ c.peers = i ∧ c.readyState ≠ 3)

/-- The relay invariant of a state. -/
def RelayInv (st : State) : Prop := RelayInvOn st.sets st.conns

/-- The keys of `CODE_TO_SESSION` are pairwise distinct and every session with
an expiry entry is the value of some code. -/
def RegistryInv (st : State) : Prop :=
  (st.CODE_TO_SESSION.map Prod.fst).Nodup ∧
  ∀ (s : String), mapGet st.SESSION_EXPIRY s ≠ none →
    ∃ (c : String), mapGet st.CODE_TO_SESSION c = some s

/-- The invariant of the stores: `CODE_TO_SESSION` is a map (its keys are
pairwise distinct) and is injective, its values are exactly the keys of
`SESSION_EXPIRY`, and every key of `UPLOAD_STORE` is a key of
`SESSION_EXPIRY`. -/
def StoreInv (st : State) : Prop :=
  (st.CODE_TO_SESSION.map Prod.fst).Nodup ∧
  (∀ (c1 c2 s : String), mapGet st.CODE_TO_SESSION c1 = some s →
    mapGet st.CODE_TO_SESSION c2 = some s → c1 = c2) ∧
  (∀ (s : String), (∃ (c : String), mapGet st.CODE_TO_SESSION c = some s) ↔
    mapGet st.SESSION_EXPIRY s ≠ none) ∧
  (∀ (s : String), mapGet st.UPLOAD_STORE s ≠ none → mapGet st.SESSION_EXPIRY s ≠ none)

/-- The identifier that `uuidv4()` returns in this reaction, if the reaction
calls `createSession`, is not the identifier of a session that has an expiry
entry. -/
def Event.uuidFresh (st : State) : Event → Prop
  | .session action _ uuid _ _ => action = some "create" → mapGet st.SESSION_EXPIRY uuid = none
  | _ => True

/-! ## Lemmas on maps -/

theorem mapHas_eq_false_iff {β : Type} (m : List (String × β)) (k : String) :
    mapHas m k = false ↔ mapGet m k = none := by
  unfold mapHas; cases mapGet m k <;> simp

theorem mapGet_mapSet_self {β : Type} (m : List (String × β)) (k : String) (v : β) :
    mapGet (mapSet m k v) k = some v := by
  induction m with
  | nil => simp [mapSet, mapGet]
  | cons e m ih =>
    obtain ⟨a, b⟩ := e
    by_cases h : a = k <;> simp [mapSet, mapGet, h, ih]

theorem mapGet_mapSet_other {β : Type} (m : List (String × β)) (k k' : String) (v : β)
    (hne : k' ≠ k) : mapGet (mapSet m k v) k' = mapGet m k' := by
  have hne2 : ¬ k = k' := fun e => hne e.symm
  induction m with
  | nil => simp [mapSet, mapGet, hne2]
  | cons e m ih =>
    obtain ⟨a, b⟩ := e
    by_cases h : a = k
    · subst h; simp [mapSet, mapGet, hne2]
    · by_cases h2 : a = k'
      · subst h2; simp [mapSet, mapGet, h]
      · simp [mapSet, mapGet, h, h2, ih]

theorem mapGet_mapDelete_self {β : Type} (m : List (String × β)) (k : String) :
    mapGet (mapDelete m k) k = none := by
  induction m with
  | nil => simp [mapDelete, mapGet]
  | cons e m ih =>
    obtain ⟨a, b⟩ := e
    by_cases h : a = k <;> simp [mapDelete, mapGet, h, ih]

theorem mapGet_mapDelete_other {β : Type} (m : List (String × β)) (k k' : String)
    (hne : k' ≠ k) : mapGet (mapDelete m k) k' = mapGet m k' := by
  induction m with
  | nil => simp [mapDelete, mapGet]
  | cons e m ih =>
    obtain ⟨a, b⟩ := e
    by_cases h : a = k
    · subst h
      have h2 : ¬ a = k' := fun e => hne e.symm
      simp [mapDelete, mapGet, h2, ih]
    · by_cases h2 : a = k'
      · subst h2; simp [mapDelete, mapGet, h]
      · simp [mapDelete, mapGet, h, h2, ih]

theorem mapGet_mapDelete_none {β : Type} (m : List (String × β)) (k k' : String)
    (h : mapGet m k' = none) : mapGet (mapDelete m k) k' = none := by
  by_cases hk : k' = k
  · subst hk; exact mapGet_mapDelete_self m k'
  · rw [mapGet_mapDelete_other m k k' hk]; exact h

theorem mapGet_eq_none_iff {β : Type} (m : List (String × β)) (k : String) :
    mapGet m k = none ↔ k ∉ m.map Prod.fst := by
  induction m with
  | nil => simp [mapGet]
  | cons e m ih =>
    obtain ⟨a, b⟩ := e
    by_cases h : a = k
    · simp [mapGet, h]
    · have h2 : ¬ k = a := fun e => h e.symm
      simp [mapGet, h, h2, ih]

theorem mem_keys_mapSet {β : Type} (m : List (String × β)) (k : String) (v : β) (x : String) :
    x ∈ (mapSet m k v).map Prod.fst ↔ x = k ∨ x ∈ m.map Prod.fst := by
  induction m with
  | nil => simp [mapSet]
  | cons e m ih =>
    obtain ⟨a, b⟩ := e
    by_cases h : a = k
    · subst h; simp [mapSet]
    · simp only [mapSet, h, if_false, List.map_cons, List.mem_cons, ih]
      tauto

theorem mapSet_keys_nodup {β : Type} (m : List (String × β)) (k : String) (v : β)
    (h : (m.map Prod.fst).Nodup) : ((mapSet m k v).map Prod.fst).Nodup := by
  induction m with
  | nil => simp [mapSet]
  | cons e m ih =>
    obtain ⟨a, b⟩ := e
    simp only [List.map_cons, List.nodup_cons] at h
    by_cases hk : a = k
    · subst hk
      simp only [mapSet, if_true, List.map_cons, List.nodup_cons]
      exact h
    · simp only [mapSet, hk, if_false, List.map_cons, List.nodup_cons]
      refine ⟨?_, ih h.2⟩
      rw [mem_keys_mapSet]
      rintro (h1 | h1)
      · exact hk h1
      · exact h.1 h1

/-! ## Lemmas on `generateCode` -/

theorem toDigits_four (n : Nat) (h1 : 1000 ≤ n) (h2 : n < 10000) :
    Nat.toDigits 10 n =
      [Nat.digitChar (n / 1000), Nat.digitChar (n / 100 % 10), Nat.digitChar (n / 10 % 10),
        Nat.digitChar (n % 10)] := by
  have hf : n + 1 = (n - 3) + 1 + 1 + 1 + 1 := by omega
  have e1 : ¬ n / 10 = 0 := by omega
  have e2 : ¬ n / 10 / 10 = 0 := by omega
  have e3 : ¬ n / 10 / 10 / 10 = 0 := by omega
  have e4 : n / 10 / 10 / 10 / 10 = 0 := by omega
  have d1 : n / 10 / 10 = n / 100 := by omega
  have d2 : n / 10 / 10 / 10 = n / 1000 := by omega
  have d3 : n / 1000 % 10 = n / 1000 := by omega
  rw [Nat.toDigits, hf]
  simp only [Nat.toDigitsCore, e1, e2, e3, e4, if_true, if_false]
  rw [d2, d1, d3]

theorem digitChar_isDigit (d : Nat) (h : d < 10) : (Nat.digitChar d).isDigit = true := by
  interval_cases d <;> decide

theorem bitLength_zero (fuel : Nat) : bitLength fuel 0 = 0 := by
  cases fuel <;> simp [bitLength]

theorem bitLength_spec (fuel : Nat) : ∀ (n : Nat), n ≤ fuel →
    n < 2 ^ bitLength fuel n ∧ (0 < n → 2 ^ bitLength fuel n ≤ 2 * n) := by
  induction fuel with
  | zero =>
    intro n hn
    have : n = 0 := by omega
    subst this
    simp [bitLength]
  | succ f ih =>
    intro n hn
    by_cases h0 : n = 0
    · subst h0; simp [bitLength]
    · simp only [bitLength, h0, if_false]
      obtain ⟨h1, h2⟩ := ih (n / 2) (by omega)
      rw [pow_succ]
      constructor
      · omega
      · intro _
        by_cases h3 : n / 2 = 0
        · rw [h3, bitLength_zero]
          simp
          omega
        · have := h2 (by omega)
          omega

theorem bitLength_le (n b : Nat) (h : n < 2 ^ b) : bitLength n n ≤ b := by
  by_contra hc
  have hb : b + 1 ≤ bitLength n n := by omega
  by_cases h0 : n = 0
  · subst h0; rw [bitLength_zero] at hb; omega
  · have h2 := (bitLength_spec n n (le_refl n)).2 (by omega)
    have h3 : 2 ^ (b + 1) ≤ 2 ^ bitLength n n := Nat.pow_le_pow_right (by decide) hb
    rw [pow_succ] at h3
    omega

theorem bitLength_ge (n b : Nat) (h : 2 ^ b ≤ n) : b + 1 ≤ bitLength n n := by
  by_contra hc
  have hb : bitLength n n ≤ b := by omega
  have h1 := (bitLength_spec n n (le_refl n)).1
  have h3 : 2 ^ bitLength n n ≤ 2 ^ b := Nat.pow_le_pow_right (by decide) hb
  omega

/-- Rounding to a multiple of `d` does not pass a multiple of `d` above. -/
theorem roundNearestEven_le (d n M : Nat) (hd : 0 < d) (hM : d ∣ M) (h : n ≤ M) :
    roundNearestEven d n ≤ M := by
  obtain ⟨m, rfl⟩ := hM
  have hdm := Nat.div_add_mod n d
  have hq : n / d * d ≤ d * m := by
    calc n / d * d ≤ n := Nat.div_mul_le_self n d
      _ ≤ d * m := h
  have hup : 0 < n % d → (n / d + 1) * d ≤ d * m := by
    intro hr
    have hlt : n / d < m := by
      by_contra hc
      have : m ≤ n / d := by omega
      have : d * m ≤ d * (n / d) := Nat.mul_le_mul_left d this
      omega
    calc (n / d + 1) * d ≤ m * d := Nat.mul_le_mul_right d hlt
      _ = d * m := Nat.mul_comm m d
  unfold roundNearestEven
  split_ifs with h1 h2 h3
  · exact hq
  · exact hup (by omega)
  · exact hq
  · exact hup (by omega)

/-- Rounding to a multiple of `d` does not pass a multiple of `d` below. -/
theorem roundNearestEven_ge (d n M : Nat) (hd : 0 < d) (hM : d ∣ M) (h : M ≤ n) :
    M ≤ roundNearestEven d n := by
  obtain ⟨m, rfl⟩ := hM
  have hq : d * m ≤ n / d * d := by
    have h1 : m ≤ n / d := by
      rw [Nat.le_div_iff_mul_le hd, Nat.mul_comm]; exact h
    calc d * m = m * d := Nat.mul_comm d m
      _ ≤ n / d * d := Nat.mul_le_mul_right d h1
  have hup : n / d * d ≤ (n / d + 1) * d := Nat.mul_le_mul_right d (by omega)
  unfold roundNearestEven
  split_ifs <;> omega

/-- The rounded product `Math.random() * 9000` is at most `9000 - 2^-39`. -/
theorem roundDouble_product_le (k : Nat) (hk : k < 2 ^ 53) :
    roundDouble (k * 9000) ≤ 9000 * 2 ^ 53 - 16384 := by
  have e53 : (2 : Nat) ^ 53 = 9007199254740992 := by norm_num
  have e66 : (2 : Nat) ^ 66 = 73786976294838206464 := by norm_num
  have e67 : (2 : Nat) ^ 67 = 147573952589676412928 := by norm_num
  rw [e53] at hk ⊢
  by_cases hbig : 73786976294838206464 ≤ k * 9000
  · have h1 : bitLength (k * 9000) (k * 9000) ≤ 67 := bitLength_le _ 67 (by rw [e67]; omega)
    have h2 : 67 ≤ bitLength (k * 9000) (k * 9000) := bitLength_ge _ 66 (by rw [e66]; exact hbig)
    have h3 : bitLength (k * 9000) (k * 9000) - 53 = 14 := by omega
    unfold roundDouble
    rw [h3]
    have hd : (2 : Nat) ^ 14 = 16384 := by norm_num
    rw [hd]
    obtain ⟨n, hn⟩ : ∃ n, n = k * 9000 := ⟨_, rfl⟩
    rw [← hn] at hbig ⊢
    have hn2 : n ≤ 81064793292668928000 - 9000 := by omega
    clear hn hk h1 h2 h3
    unfold roundNearestEven
    split_ifs <;> omega
  · have h1 : bitLength (k * 9000) (k * 9000) ≤ 66 := bitLength_le _ 66 (by rw [e66]; omega)
    have hdvd : 2 ^ (bitLength (k * 9000) (k * 9000) - 53) ∣ 2 ^ 66 :=
      pow_dvd_pow 2 (by omega)
    have hpos : 0 < 2 ^ (bitLength (k * 9000) (k * 9000) - 53) := Nat.pos_pow_of_pos _ (by decide)
    have h2 := roundNearestEven_le _ (k * 9000) (2 ^ 66) hpos hdvd (by rw [e66]; omega)
    rw [e66] at h2
    unfold roundDouble
    omega

/-- The number `Math.floor(1000 + Math.random() * 9000)` lies between 1000 and
9999, roundings included. -/
theorem codeValue_range (k : Nat) : 1000 ≤ codeValue k ∧ codeValue k < 10000 := by
  have e53 : (2 : Nat) ^ 53 = 9007199254740992 := by norm_num
  have e67 : (2 : Nat) ^ 67 = 147573952589676412928 := by norm_num
  have hk : k % 2 ^ 53 < 2 ^ 53 := Nat.mod_lt _ (by norm_num)
  have hp := roundDouble_product_le (k % 2 ^ 53) hk
  obtain ⟨x, hx⟩ : ∃ x, x = roundDouble ((k % 2 ^ 53) * 9000) := ⟨_, rfl⟩
  rw [← hx] at hp
  unfold codeValue
  rw [← hx]
  clear hx hk
  rw [e53] at hp ⊢
  obtain ⟨y, hy⟩ : ∃ y, y = 1000 * 9007199254740992 + x := ⟨_, rfl⟩
  rw [← hy]
  have hylo : 1000 * 9007199254740992 ≤ y := by omega
  have hyhi : y ≤ 10000 * 9007199254740992 - 16384 := by omega
  clear hy hp
  have hb : bitLength y y ≤ 67 := bitLength_le _ 67 (by rw [e67]; omega)
  have hdvd : 2 ^ (bitLength y y - 53) ∣ 2 ^ 14 := pow_dvd_pow 2 (by omega)
  have hlo14 : (2 : Nat) ^ 14 ∣ 1000 * 9007199254740992 :=
    ⟨1000 * 549755813888, by norm_num⟩
  have hhi14 : (2 : Nat) ^ 14 ∣ 10000 * 9007199254740992 - 16384 :=
    ⟨10000 * 549755813888 - 1, by norm_num⟩
  have hpos : 0 < 2 ^ (bitLength y y - 53) := Nat.pos_pow_of_pos _ (by decide)
  have hlo := roundNearestEven_ge _ y (1000 * 9007199254740992) hpos
    (dvd_trans hdvd hlo14) hylo
  have hhi := roundNearestEven_le _ y (10000 * 9007199254740992 - 16384) hpos
    (dvd_trans hdvd hhi14) hyhi
  unfold roundDouble
  constructor
  · exact (Nat.le_div_iff_mul_le (by norm_num)).2 hlo
  · exact (Nat.div_lt_iff_lt_mul (by norm_num)).2 (by omega)

/-- The roundings matter: at this draw the exact value of `1000 + r * 9000` is
below 1025 and the double sum is 1025. -/
theorem codeValue_rounds_up :
    codeValue 25019997929836 = 1025 ∧ 1000 + 25019997929836 * 9000 / 2 ^ 53 = 1024 := by
  decide

theorem generateCode_fourDigits (k : Nat) : isFourDigits (generateCode k) := by
  obtain ⟨h1, h2⟩ := codeValue_range k
  have hd : (generateCode k).data = Nat.toDigits 10 (codeValue k) := rfl
  unfold isFourDigits
  rw [hd, toDigits_four _ h1 h2]
  refine ⟨rfl, ?_⟩
  intro c hc
  simp only [List.mem_cons, List.mem_singleton, List.not_mem_nil, or_false] at hc
  rcases hc with h | h | h | h <;> subst h <;> apply digitChar_isDigit <;> omega

theorem pickCode_spec (codes : List (String × String)) (draws : Nat → Nat) :
    ∀ (fuel i : Nat) (code : String), pickCode codes draws fuel i = some code →
      mapHas codes code = false ∧ ∃ j, code = generateCode (draws j) := by
  intro fuel
  induction fuel with
  | zero => intro i code h; simp [pickCode] at h
  | succ n ih =>
    intro i code h
    simp only [pickCode] at h
    by_cases hb : mapHas codes (generateCode (draws i)) = true
    · rw [if_pos hb] at h; exact ih _ _ h
    · rw [if_neg hb] at h
      injection h with h
      subst h
      exact ⟨by simpa using hb, i, rfl⟩

theorem createSession_spec (st : State) (draws : Nat → Nat) (uuid : String)
    (now fuel : Nat) (st1 : State) (code sessionId : String)
    (h : createSession st draws uuid now fuel = some (st1, code, sessionId)) :
    isFourDigits code ∧ mapHas st.CODE_TO_SESSION code = false ∧
      mapGet st1.CODE_TO_SESSION code = some sessionId ∧
      (∀ c, c ≠ code → mapGet st1.CODE_TO_SESSION c = mapGet st.CODE_TO_SESSION c) ∧
      ((st.CODE_TO_SESSION.map Prod.fst).Nodup → (st1.CODE_TO_SESSION.map Prod.fst).Nodup) := by
  unfold createSession at h
  cases hp : pickCode st.CODE_TO_SESSION draws fuel 0 with
  | none => rw [hp] at h; simp at h
  | some c =>
    rw [hp] at h
    simp only [Option.some.injEq, Prod.mk.injEq] at h
    obtain ⟨hst, hc, hs⟩ := h
    subst hst hc hs
    obtain ⟨hfree, j, hj⟩ := pickCode_spec _ _ _ _ _ hp
    refine ⟨?_, hfree, mapGet_mapSet_self _ _ _, ?_, ?_⟩
    · rw [hj]; exact generateCode_fourDigits _
    · intro c' hne; exact mapGet_mapSet_other _ _ _ _ hne
    · intro hnd; exact mapSet_keys_nodup _ _ _ hnd

/-! ## What each reaction leaves alone -/

theorem resolve_fst (st : State) (code : Option String) (now1 now2 : Nat) :
    (resolve st code now1 now2).1 = st := by
  unfold resolve
  cases code with
  | none => rfl
  | some c =>
    dsimp only
    split_ifs
    · rfl
    · cases mapGet st.CODE_TO_SESSION c with
      | none => rfl
      | some sid => dsimp only; split_ifs <;> rfl

theorem download_fst (st : State) (sessionId : String) : (download st sessionId).1 = st := by
  unfold download
  cases mapGet st.UPLOAD_STORE sessionId with
  | none => rfl
  | some file => dsimp only; split_ifs <;> rfl

theorem uploadHandler_frame (b64 : String → List Nat) (st : State) (body : UploadBody) (now : Nat) :
    (uploadHandler b64 st body now).1.CODE_TO_SESSION = st.CODE_TO_SESSION ∧
    (uploadHandler b64 st body now).1.SESSION_EXPIRY = st.SESSION_EXPIRY ∧
    (uploadHandler b64 st body now).1.SESSION_TO_PEERS = st.SESSION_TO_PEERS ∧
    (uploadHandler b64 st body now).1.sets = st.sets ∧
    (uploadHandler b64 st body now).1.conns = st.conns := by
  unfold uploadHandler
  dsimp only
  split_ifs <;> simp

theorem postUpload_frame (b64 : String → List Nat) (st : State) (req : UploadRequest) (now : Nat) :
    (postUpload b64 st req now).1.CODE_TO_SESSION = st.CODE_TO_SESSION ∧
    (postUpload b64 st req now).1.SESSION_EXPIRY = st.SESSION_EXPIRY ∧
    (postUpload b64 st req now).1.SESSION_TO_PEERS = st.SESSION_TO_PEERS ∧
    (postUpload b64 st req now).1.sets = st.sets ∧
    (postUpload b64 st req now).1.conns = st.conns := by
  unfold postUpload
  split_ifs
  · simp
  · exact uploadHandler_frame b64 st req.body now

theorem connection_frame (st : State) (sessionId : String) :
    (connection st sessionId).1.CODE_TO_SESSION = st.CODE_TO_SESSION ∧
    (connection st sessionId).1.SESSION_EXPIRY = st.SESSION_EXPIRY ∧
    (connection st sessionId).1.UPLOAD_STORE = st.UPLOAD_STORE := by
  unfold connection
  dsimp only
  split_ifs <;> simp

theorem upgrade_frame (st : State) (pathname : String) (sessionId : Option String)
    (handshakeOk : Bool) (now : Nat) :
    (upgrade st pathname sessionId handshakeOk now).1.CODE_TO_SESSION = st.CODE_TO_SESSION ∧
    (upgrade st pathname sessionId handshakeOk now).1.SESSION_EXPIRY = st.SESSION_EXPIRY ∧
    (upgrade st pathname sessionId handshakeOk now).1.UPLOAD_STORE = st.UPLOAD_STORE := by
  unfold upgrade
  dsimp only
  split_ifs
  · simp
  · simp
  · exact connection_frame st _
  · simp

theorem broadcast_frame (st : State) (sessionId : String) (msgObj : Json) (exclude : Nat) :
    (broadcast st sessionId msgObj exclude).CODE_TO_SESSION = st.CODE_TO_SESSION ∧
    (broadcast st sessionId msgObj exclude).SESSION_EXPIRY = st.SESSION_EXPIRY ∧
    (broadcast st sessionId msgObj exclude).UPLOAD_STORE = st.UPLOAD_STORE ∧
    (broadcast st sessionId msgObj exclude).SESSION_TO_PEERS = st.SESSION_TO_PEERS ∧
    (broadcast st sessionId msgObj exclude).sets = st.sets := by
  unfold broadcast
  cases mapGet st.SESSION_TO_PEERS sessionId <;> simp

theorem onMessage_frame (st : State) (ws : Nat) (parsed : Option Json) :
    (onMessage st ws parsed).CODE_TO_SESSION = st.CODE_TO_SESSION ∧
    (onMessage st ws parsed).SESSION_EXPIRY = st.SESSION_EXPIRY ∧
    (onMessage st ws parsed).UPLOAD_STORE = st.UPLOAD_STORE ∧
    (onMessage st ws parsed).SESSION_TO_PEERS = st.SESSION_TO_PEERS ∧
    (onMessage st ws parsed).sets = st.sets := by
  unfold onMessage
  cases st.conns.get? ws with
  | none => simp
  | some c =>
    cases parsed with
    | none => simp
    | some msg =>
      dsimp only
      split_ifs
      · exact broadcast_frame st _ _ _
      · simp

theorem onClose_frame (st : State) (ws : Nat) :
    (onClose st ws).CODE_TO_SESSION = st.CODE_TO_SESSION ∧
    (onClose st ws).SESSION_EXPIRY = st.SESSION_EXPIRY ∧
    (onClose st ws).UPLOAD_STORE = st.UPLOAD_STORE := by
  unfold onClose
  cases st.conns.get? ws <;> simp

theorem startClosing_frame (st : State) (ws : Nat) :
    (startClosing st ws).CODE_TO_SESSION = st.CODE_TO_SESSION ∧
    (startClosing st ws).SESSION_EXPIRY = st.SESSION_EXPIRY ∧
    (startClosing st ws).UPLOAD_STORE = st.UPLOAD_STORE ∧
    (startClosing st ws).SESSION_TO_PEERS = st.SESSION_TO_PEERS ∧
    (startClosing st ws).sets = st.sets := by
  unfold startClosing
  cases st.conns.get? ws <;> simp

/-- A reaction other than a successful `createSession` or a sweep leaves the
registry as it is. -/
theorem step_registry (b64 : String → List Nat) (st st1 : State) (e : Event)
    (h : step b64 st e = some st1) :
    registryOf st1 = registryOf st ∨
    (∃ draws uuid now fuel code, createSession st draws uuid now fuel = some (st1, code, uuid)) ∨
    (∃ now, st1 = cleanExpired st now) := by
  cases e with
  | session action draws uuid now fuel =>
    simp only [step, postSession] at h
    by_cases ha : action ≠ some "create"
    · rw [if_pos ha] at h
      simp at h
      subst h; exact Or.inl rfl
    · rw [if_neg ha] at h
      cases hc : createSession st draws uuid now fuel with
      | none => rw [hc] at h; simp at h
      | some r =>
        obtain ⟨s2, code, sid⟩ := r
        rw [hc] at h
        simp at h
        subst h
        have hu : sid = uuid := by
          unfold createSession at hc
          cases hp : pickCode st.CODE_TO_SESSION draws fuel 0 with
          | none => rw [hp] at hc; simp at hc
          | some c => rw [hp] at hc; simp at hc; exact hc.2.2.symm
        subst hu
        exact Or.inr (Or.inl ⟨draws, sid, now, fuel, code, hc⟩)
  | resolve code now1 now2 =>
    simp only [step, Option.some.injEq] at h
    subst h; rw [resolve_fst]; exact Or.inl rfl
  | upload req now =>
    simp only [step, Option.some.injEq] at h
    subst h
    obtain ⟨h1, h2, -⟩ := postUpload_frame b64 st req now
    left; unfold registryOf; rw [h1, h2]
  | download sessionId =>
    simp only [step, Option.some.injEq] at h
    subst h; rw [download_fst]; exact Or.inl rfl
  | sweep now =>
    simp only [step, Option.some.injEq] at h
    exact Or.inr (Or.inr ⟨now, h.symm⟩)
  | upgrade pathname sessionId handshakeOk now =>
    simp only [step, Option.some.injEq] at h
    subst h
    obtain ⟨h1, h2, -⟩ := upgrade_frame st pathname sessionId handshakeOk now
    left; unfold registryOf; rw [h1, h2]
  | message ws parsed =>
    simp only [step, Option.some.injEq] at h
    subst h
    split_ifs
    · exact Or.inl rfl
    · obtain ⟨h1, h2, -⟩ := onMessage_frame st ws parsed
      left; unfold registryOf; rw [h1, h2]
  | closing ws =>
    simp only [step, Option.some.injEq] at h
    subst h
    split_ifs
    · obtain ⟨h1, h2, -⟩ := startClosing_frame st ws
      left; unfold registryOf; rw [h1, h2]
    · exact Or.inl rfl
  | close ws =>
    simp only [step, Option.some.injEq] at h
    subst h
    split_ifs
    · exact Or.inl rfl
    · obtain ⟨h1, h2, -⟩ := onClose_frame st ws
      left; unfold registryOf; rw [h1, h2]

/-- A property that holds initially and is kept by every reaction holds in
every reachable state. -/
theorem reachable_induction (b64 : String → List Nat) (P : State → Prop) (h0 : P State.init)
    (hstep : ∀ st e st1, P st → step b64 st e = some st1 → P st1) :
    ∀ st, Reachable b64 st → P st := by
  have key : ∀ es st st1, P st → run b64 st es = some st1 → P st1 := by
    intro es
    induction es with
    | nil => intro st st1 hp h; simp [run] at h; subst h; exact hp
    | cons e es ih =>
      intro st st1 hp h
      simp only [run] at h
      cases hs : step b64 st e with
      | none => rw [hs] at h; simp at h
      | some s2 => rw [hs] at h; exact ih s2 st1 (hstep st e s2 hp hs) h
  intro st ⟨es, h⟩
  exact key es State.init st h0 h

theorem run_append (b64 : String → List Nat) (es1 es2 : List Event) (st st1 : State)
    (h : run b64 st es1 = some st1) : run b64 st (es1 ++ es2) = run b64 st1 es2 := by
  induction es1 generalizing st with
  | nil => simp [run] at h; subst h; rfl
  | cons e es ih =>
    simp only [run, List.cons_append] at h ⊢
    cases hs : step b64 st e with
    | none => rw [hs] at h; simp at h
    | some s2 => rw [hs] at h; exact ih s2 h

/-! ## The sweep, entry by entry -/

theorem sweepEntry_codes (now : Nat) (st : State) (e : String × String) (c : String) :
    mapGet (sweepEntry now st e).CODE_TO_SESSION c = none ∨
    mapGet (sweepEntry now st e).CODE_TO_SESSION c = mapGet st.CODE_TO_SESSION c := by
  unfold sweepEntry
  split_ifs
  · by_cases hc : c = e.1
    · left; subst hc; exact mapGet_mapDelete_self _ _
    · right; exact mapGet_mapDelete_other _ _ _ hc
  · right; rfl

theorem sweepEntry_expiry (now : Nat) (st : State) (e : String × String) (s : String) :
    mapGet (sweepEntry now st e).SESSION_EXPIRY s = none ∨
    mapGet (sweepEntry now st e).SESSION_EXPIRY s = mapGet st.SESSION_EXPIRY s := by
  unfold sweepEntry
  split_ifs
  · by_cases hc : s = e.2
    · left; subst hc; exact mapGet_mapDelete_self _ _
    · right; exact mapGet_mapDelete_other _ _ _ hc
  · right; rfl

theorem sweepEntry_upload (now : Nat) (st : State) (e : String × String) (s : String) :
    mapGet (sweepEntry now st e).UPLOAD_STORE s = none ∨
    mapGet (sweepEntry now st e).UPLOAD_STORE s = mapGet st.UPLOAD_STORE s := by
  unfold sweepEntry
  split_ifs
  · by_cases hc : s = e.2
    · left; subst hc; exact mapGet_mapDelete_self _ _
    · right; exact mapGet_mapDelete_other _ _ _ hc
  · right; rfl

theorem sweepEntry_peers (now : Nat) (st : State) (e : String × String) (s : String) :
    mapGet (sweepEntry now st e).SESSION_TO_PEERS s = none ∨
    mapGet (sweepEntry now st e).SESSION_TO_PEERS s = mapGet st.SESSION_TO_PEERS s := by
  unfold sweepEntry
  split_ifs
  · by_cases hc : s = e.2
    · left; subst hc; exact mapGet_mapDelete_self _ _
    · right; exact mapGet_mapDelete_other _ _ _ hc
  · right; rfl

theorem sweepEntry_heap (now : Nat) (st : State) (e : String × String) :
    (sweepEntry now st e).sets = st.sets ∧ (sweepEntry now st e).conns = st.conns := by
  unfold sweepEntry
  split_ifs <;> simp

/-- A fold of `sweepEntry` only removes bindings: each key of each store is
afterwards unbound or bound as before. -/
theorem sweepFold_monotone (now : Nat) (l : List (String × String)) (st : State) :
    (∀ c, mapGet (l.foldl (sweepEntry now) st).CODE_TO_SESSION c = none ∨
      mapGet (l.foldl (sweepEntry now) st).CODE_TO_SESSION c = mapGet st.CODE_TO_SESSION c) ∧
    (∀ s, mapGet (l.foldl (sweepEntry now) st).SESSION_EXPIRY s = none ∨
      mapGet (l.foldl (sweepEntry now) st).SESSION_EXPIRY s = mapGet st.SESSION_EXPIRY s) ∧
    (∀ s, mapGet (l.foldl (sweepEntry now) st).UPLOAD_STORE s = none ∨
      mapGet (l.foldl (sweepEntry now) st).UPLOAD_STORE s = mapGet st.UPLOAD_STORE s) ∧
    (∀ s, mapGet (l.foldl (sweepEntry now) st).SESSION_TO_PEERS s = none ∨
      mapGet (l.foldl (sweepEntry now) st).SESSION_TO_PEERS s = mapGet st.SESSION_TO_PEERS s) ∧
    (l.foldl (sweepEntry now) st).sets = st.sets ∧
    (l.foldl (sweepEntry now) st).conns = st.conns := by
  induction l generalizing st with
  | nil => simp
  | cons e l ih =>
    simp only [List.foldl_cons]
    obtain ⟨h1, h2, h3, h4, h5, h6⟩ := ih (sweepEntry now st e)
    refine ⟨?_, ?_, ?_, ?_, ?_, ?_⟩
    · intro c
      rcases h1 c with h | h
      · exact Or.inl h
      · rw [h]; exact sweepEntry_codes now st e c
    · intro s
      rcases h2 s with h | h
      · exact Or.inl h
      · rw [h]; exact sweepEntry_expiry now st e s
    · intro s
      rcases h3 s with h | h
      · exact Or.inl h
      · rw [h]; exact sweepEntry_upload now st e s
    · intro s
      rcases h4 s with h | h
      · exact Or.inl h
      · rw [h]; exact sweepEntry_peers now st e s
    · rw [h5]; exact (sweepEntry_heap now st e).1
    · rw [h6]; exact (sweepEntry_heap now st e).2

/-! ## Invariant: the bound codes are four-digit strings -/

theorem reachable_codesWellFormed (b64 : String → List Nat) (st : State)
    (h : Reachable b64 st) : CodesWellFormed st := by
  refine reachable_induction b64 CodesWellFormed ?_ ?_ st h
  · intro c hc; simp [State.init, mapGet] at hc
  · intro s e s1 hp hs c hc
    rcases step_registry b64 s s1 e hs with hreg | ⟨draws, uuid, now, fuel, code, hcs⟩ | ⟨now, hsw⟩
    · have : s1.CODE_TO_SESSION = s.CODE_TO_SESSION := congrArg Prod.fst hreg
      rw [this] at hc; exact hp c hc
    · obtain ⟨h4, -, -, hother, -⟩ := createSession_spec s draws uuid now fuel s1 code uuid hcs
      by_cases hcc : c = code
      · subst hcc; exact h4
      · rw [hother c hcc] at hc; exact hp c hc
    · subst hsw
      rcases (sweepFold_monotone now s.CODE_TO_SESSION s).1 c with h1 | h1
      · exact absurd h1 hc
      · unfold cleanExpired at hc; rw [h1] at hc; exact hp c hc

theorem fourDigits_ne_empty (c : String) (h : isFourDigits c) : c ≠ "" := by
  intro he; subst he; simp [isFourDigits] at h

theorem reachable_step (b64 : String → List Nat) (st st1 : State) (e : Event)
    (hr : Reachable b64 st) (hs : step b64 st e = some st1) : Reachable b64 st1 := by
  obtain ⟨es, h⟩ := hr
  refine ⟨es ++ [e], ?_⟩
  rw [run_append b64 es [e] State.init st h]
  simp [run, hs]

theorem reachable_run (b64 : String → List Nat) (st st1 : State) (es : List Event)
    (hr : Reachable b64 st) (hs : run b64 st es = some st1) : Reachable b64 st1 := by
  obtain ⟨es0, h⟩ := hr
  exact ⟨es0 ++ es, by rw [run_append b64 es0 es State.init st h]; exact hs⟩

theorem resolve_unbound (st : State) (code : String) (now1 now2 : Nat)
    (h : mapGet st.CODE_TO_SESSION code = none) :
    (resolve st (some code) now1 now2).2 = .notFound := by
  have hh : mapHas st.CODE_TO_SESSION code = false := (mapHas_eq_false_iff _ _).2 h
  simp [resolve, hh]

theorem resolve_bound (st : State) (code sid : String) (now1 now2 : Nat)
    (hne : code ≠ "") (h : mapGet st.CODE_TO_SESSION code = some sid) :
    (resolve st (some code) now1 now2).2 =
      if expiredAt (mapGet st.SESSION_EXPIRY sid) now1 then .gone
      else .ok sid (((((mapGet st.SESSION_EXPIRY sid).getD 0 : Nat) : Int) - (now2 : Int)) / 1000) := by
  have hh : ¬ mapHas st.CODE_TO_SESSION code = false := by
    rw [mapHas_eq_false_iff, h]; simp
  have hc : ¬ (code = "" ∨ mapHas st.CODE_TO_SESSION code = false) := by
    rintro (h1 | h1)
    · exact hne h1
    · exact hh h1
  simp only [resolve]
  rw [if_neg hc]
  simp only [h]
  by_cases hx : expiredAt (mapGet st.SESSION_EXPIRY sid) now1 = true
  · rw [if_pos hx, if_pos hx]
  · rw [if_neg hx, if_neg hx]

/-! ## Lemmas on the base64 decoder and the upload route -/

theorem packSextets_length (l : List Nat) : 4 * (packSextets l).length ≤ 3 * l.length := by
  induction l using packSextets.induct with
  | case1 a b c d rest ih => simp only [packSextets, List.length_cons]; omega
  | case2 a b c => simp [packSextets]
  | case3 a b => simp [packSextets]
  | case4 l h1 h2 h3 =>
    rw [packSextets]
    · simp
    · exact h1
    · exact h2
    · exact h3

theorem base64Decode_bound (s : String) : 4 * (base64Decode s).length ≤ 3 * s.length := by
  unfold base64Decode
  have h1 := packSextets_length ((s.data.takeWhile (fun c => c != '=')).filterMap sextet)
  have h2 : ((s.data.takeWhile (fun c => c != '=')).filterMap sextet).length ≤ s.data.length :=
    le_trans (List.length_filterMap_le _ _) (List.takeWhile_sublist _).length_le
  have h3 : s.length = s.data.length := rfl
  omega

theorem packSextets_replicate (k : Nat) :
    packSextets (List.replicate (4 * k) 0) = List.replicate (3 * k) 0 := by
  induction k with
  | zero => rfl
  | succ n ih =>
    have e1 : 4 * (n + 1) = 4 * n + 1 + 1 + 1 + 1 := by ring
    have e2 : 3 * (n + 1) = 3 * n + 1 + 1 + 1 := by ring
    rw [e1, e2]
    simp only [List.replicate_succ, packSextets, ih]

theorem sextets_replicate (n : Nat) :
    ((List.replicate n 'A').takeWhile (fun c => c != '=')).filterMap sextet =
      List.replicate n 0 := by
  induction n with
  | zero => rfl
  | succ n ih =>
    rw [List.replicate_succ, List.takeWhile_cons_of_pos (by decide),
      List.filterMap_cons_some (by decide : sextet 'A' = some 0), ih, List.replicate_succ]

theorem base64Decode_replicate (k : Nat) :
    (base64Decode (String.mk (List.replicate (4 * k) 'A'))).length = 3 * k := by
  unfold base64Decode
  rw [sextets_replicate, packSextets_replicate, List.length_replicate]

theorem sextet_alphabetChar (v : Nat) (h : v < 64) : sextet (alphabetChar v) = some v := by
  interval_cases v <;> rfl

theorem alphabetChar_ne_pad (v : Nat) : (alphabetChar v != '=') = true := by
  by_cases h : v < 64
  · interval_cases v <;> rfl
  · have h1 : ¬ v < 26 := by omega
    have h2 : ¬ v < 52 := by omega
    have h3 : ¬ v < 62 := by omega
    have h4 : ¬ v = 62 := by omega
    simp only [alphabetChar, h1, h2, h3, h4, if_false]
    rfl

theorem sextets_cons (v : Nat) (h : v < 64) (cs : List Char) :
    ((alphabetChar v :: cs).takeWhile (fun c => c != '=')).filterMap sextet =
      v :: (cs.takeWhile (fun c => c != '=')).filterMap sextet := by
  have h1 : (fun c : Char => c != '=') (alphabetChar v) = true := alphabetChar_ne_pad v
  rw [List.takeWhile_cons_of_pos (p := fun c : Char => c != '=') h1,
    List.filterMap_cons_some (sextet_alphabetChar v h)]

theorem sextets_pad (cs : List Char) :
    (('=' :: cs).takeWhile (fun c => c != '=')).filterMap sextet = [] := by
  rw [List.takeWhile_cons_of_neg (by decide)]
  rfl

theorem decode_encodeChars (p : List Nat) (hp : ∀ b ∈ p, b < 256) :
    packSextets (((encodeChars p).takeWhile (fun c => c != '=')).filterMap sextet) = p := by
  induction p using encodeChars.induct with
  | case1 a b c rest ih =>
    have ha : a < 256 := hp a (by simp)
    have hb : b < 256 := hp b (by simp)
    have hc : c < 256 := hp c (by simp)
    have hrest : ∀ x ∈ rest, x < 256 := fun x hx => hp x (by simp [hx])
    simp only [encodeChars]
    rw [sextets_cons _ (by omega), sextets_cons _ (by omega), sextets_cons _ (by omega),
      sextets_cons _ (by omega)]
    simp only [packSextets]
    rw [ih hrest]
    have e1 : a / 4 * 4 + (a % 4 * 16 + b / 16) / 16 = a := by omega
    have e2 : (a % 4 * 16 + b / 16) % 16 * 16 + (b % 16 * 4 + c / 64) / 4 = b := by omega
    have e3 : (b % 16 * 4 + c / 64) % 4 * 64 + c % 64 = c := by omega
    rw [e1, e2, e3]
  | case2 a b =>
    have ha : a < 256 := hp a (by simp)
    have hb : b < 256 := hp b (by simp)
    simp only [encodeChars]
    rw [sextets_cons _ (by omega), sextets_cons _ (by omega), sextets_cons _ (by omega),
      sextets_pad]
    simp only [packSextets]
    have e1 : a / 4 * 4 + (a % 4 * 16 + b / 16) / 16 = a := by omega
    have e2 : (a % 4 * 16 + b / 16) % 16 * 16 + (b % 16 * 4) / 4 = b := by omega
    rw [e1, e2]
  | case3 a =>
    have ha : a < 256 := hp a (by simp)
    simp only [encodeChars]
    rw [sextets_cons _ (by omega), sextets_cons _ (by omega), sextets_pad]
    simp only [packSextets]
    have e1 : a / 4 * 4 + (a % 4 * 16) / 16 = a := by omega
    rw [e1]
  | case4 => rfl

theorem base64Decode_encode (p : List Nat) (hp : ∀ b ∈ p, b < 256) :
    base64Decode (base64Encode p) = p :=
  decode_encodeChars p hp

theorem base64Encode_ne_empty (p : List Nat) (h : p ≠ []) : base64Encode p ≠ "" := by
  intro he
  have hd : (base64Encode p).data = [] := by rw [he]
  change encodeChars p = [] at hd
  match p, h with
  | [a], _ => simp [encodeChars] at hd
  | [a, b], _ => simp [encodeChars] at hd
  | a :: b :: c :: rest, _ => simp [encodeChars] at hd

theorem headerValueOk_default : headerValueOk "application/octet-stream" = true := by
  decide

/-- A stored MIME type that is not a header value makes the download answer 500. -/
theorem download_invalid_mime (st : State) (S : String) (file : Blob)
    (h : mapGet st.UPLOAD_STORE S = some file) (hbad : headerValueOk file.mime = false) :
    (download st S).2 = .serverError ∧ (download st S).2.status = 500 := by
  simp [download, h, hbad, DownloadResponse.status]

/-- A request whose decoded payload has more than three quarters of the body
limit is rejected by the body parser: the handler is not run. -/
theorem postUpload_parser_rejects (b64 : String → List Nat)
    (hb64 : ∀ s, 4 * (b64 s).length ≤ 3 * s.length) (st : State) (req : UploadRequest)
    (now : Nat) (d : String) (hwf : req.wellFormed) (hd : req.body.dataB64 = some d)
    (hbig : 3 * BODY_LIMIT < 4 * (b64 d).length) :
    postUpload b64 st req now = (st, .entityTooLarge) := by
  have h1 := hb64 d
  have h2 := hwf d hd
  have h3 : req.bodyBytes > BODY_LIMIT := by omega
  unfold postUpload
  rw [if_pos h3]

/-- A payload of exactly `MAX_BYTES` bytes never reaches the handler. -/
theorem postUpload_max_bytes_rejected (b64 : String → List Nat)
    (hb64 : ∀ s, 4 * (b64 s).length ≤ 3 * s.length) (st : State) (req : UploadRequest)
    (now : Nat) (d : String) (hwf : req.wellFormed) (hd : req.body.dataB64 = some d)
    (hsz : (b64 d).length = MAX_BYTES) :
    postUpload b64 st req now = (st, .entityTooLarge) := by
  apply postUpload_parser_rejects b64 hb64 st req now d hwf hd
  rw [hsz]; decide

theorem jsFalsy_some (v : String) (h : v ≠ "") : jsFalsy (some v) = false := by
  simp [jsFalsy, h]

theorem uploadHandler_ok (b64 : String → List Nat) (st : State) (now : Nat)
    (S filename dataB64 : String) (mime : Option String)
    (hS : S ≠ "") (hf : filename ≠ "") (hd : dataB64 ≠ "")
    (hlive : expiredAt (mapGet st.SESSION_EXPIRY S) now = false)
    (hsize : (b64 dataB64).length ≤ MAX_BYTES) :
    uploadHandler b64 st ⟨some S, some filename, mime, some dataB64⟩ now =
      ({ st with
         UPLOAD_STORE := mapSet st.UPLOAD_STORE S
           { filename := filename
             mime := if jsFalsy mime then "application/octet-stream" else mime.getD ""
             data := b64 dataB64
             size := (b64 dataB64).length } },
       .ok (b64 dataB64).length) := by
  have hsz : ¬ (b64 dataB64).length > MAX_BYTES := by omega
  simp only [uploadHandler, jsFalsy_some S hS, jsFalsy_some filename hf, jsFalsy_some dataB64 hd,
    Bool.or_self, Bool.false_eq_true, if_false, Option.getD_some, hlive, hsz]

theorem uploadHandler_tooLarge (b64 : String → List Nat)
    (hb64 : ∀ s, 4 * (b64 s).length ≤ 3 * s.length) (st : State) (now : Nat)
    (body : UploadBody) (S d : String) (hS : body.sessionId = some S) (hd : body.dataB64 = some d)
    (hne : S ≠ "") (hf : jsFalsy body.filename = false)
    (hlive : expiredAt (mapGet st.SESSION_EXPIRY S) now = false)
    (hbig : MAX_BYTES < (b64 d).length) :
    uploadHandler b64 st body now = (st, .tooLarge) := by
  have hdne : d ≠ "" := by
    intro h
    subst h
    have h0 := hb64 ""
    have h1 : ("" : String).length = 0 := rfl
    rw [h1] at h0
    omega
  have hsz : (b64 d).length > MAX_BYTES := hbig
  simp only [uploadHandler, hS, hd, jsFalsy_some S hne, jsFalsy_some d hdne, hf,
    Bool.or_self, Bool.false_eq_true, if_false, Option.getD_some, hlive, hsz, if_true]

/-! ## Lemmas on the relay -/

theorem deliver_get (msg : Json) (ex : Nat) (conns : List Conn) (ws W : Nat) :
    (deliver msg ex conns ws)[W]? =
      (conns[W]?).map (fun c =>
        if W = ws ∧ W ≠ ex ∧ c.readyState = 1 then received msg c else c) := by
  unfold deliver
  rw [List.get?_eq_getElem?]
  by_cases hW : W = ws
  · subst hW
    cases hc : conns[W]? with
    | none => simp [hc]
    | some c =>
      simp only [Option.map_some', true_and]
      by_cases hcond : W ≠ ex ∧ c.readyState = 1
      · rw [if_pos hcond, if_pos hcond]
        have hlt : W < conns.length := by
          rcases Nat.lt_or_ge W conns.length with h | h
          · exact h
          · rw [List.getElem?_eq_none h] at hc; cases hc
        rw [List.getElem?_set_self hlt]
        rfl
      · rw [if_neg hcond, if_neg hcond]
        exact hc
  · have hne : ¬ ws = W := fun e => hW e.symm
    have hid : (conns[W]?).map (fun c =>
        if W = ws ∧ W ≠ ex ∧ c.readyState = 1 then received msg c else c) = conns[W]? := by
      cases hc : conns[W]? with
      | none => rfl
      | some c => simp [hW]
    rw [hid]
    cases hc : conns[ws]? with
    | none => rfl
    | some c =>
      dsimp only
      split_ifs
      · exact List.getElem?_set_ne hne
      · rfl

theorem foldl_deliver_not_mem (msg : Json) (ex : Nat) (l : List Nat) (conns : List Conn)
    (W : Nat) (h : W ∉ l) : (l.foldl (deliver msg ex) conns)[W]? = conns[W]? := by
  induction l generalizing conns with
  | nil => rfl
  | cons ws l ih =>
    simp only [List.mem_cons, not_or] at h
    simp only [List.foldl_cons]
    rw [ih _ h.2, deliver_get]
    cases hc : conns[W]? with
    | none => rfl
    | some c => simp [h.1]

theorem foldl_deliver_get (msg : Json) (ex : Nat) (l : List Nat) (hnd : l.Nodup)
    (conns : List Conn) (W : Nat) :
    (l.foldl (deliver msg ex) conns)[W]? =
      (conns[W]?).map (fun c =>
        if W ∈ l ∧ W ≠ ex ∧ c.readyState = 1 then received msg c else c) := by
  induction l generalizing conns with
  | nil =>
    simp only [List.foldl_nil]
    cases hc : conns[W]? with
    | none => rfl
    | some c => simp
  | cons ws l ih =>
    simp only [List.nodup_cons] at hnd
    simp only [List.foldl_cons]
    by_cases hW : W = ws
    · subst hW
      rw [foldl_deliver_not_mem msg ex l _ W hnd.1, deliver_get]
      cases hc : conns[W]? with
      | none => rfl
      | some c => simp
    · rw [ih hnd.2, deliver_get]
      cases hc : conns[W]? with
      | none => rfl
      | some c => simp [hW]

theorem foldl_deliver_wiring (msg : Json) (ex : Nat) (l : List Nat) (conns : List Conn)
    (W : Nat) :
    ((l.foldl (deliver msg ex) conns)[W]?).map Conn.wiring = (conns[W]?).map Conn.wiring := by
  induction l generalizing conns with
  | nil => rfl
  | cons ws l ih =>
    simp only [List.foldl_cons]
    rw [ih, deliver_get]
    cases hc : conns[W]? with
    | none => rfl
    | some c =>
      simp only [Option.map_some', Option.some.injEq]
      split_ifs <;> rfl

/-! ## Invariant of the relay: who is in which set -/

theorem getD_eq_of_getElem? (sets : List (List Nat)) (i : Nat) (l : List Nat)
    (h : sets[i]? = some l) : sets.getD i [] = l := by
  rw [List.getD_eq_getElem?_getD, h]; rfl

theorem getD_mem (sets : List (List Nat)) (i W : Nat) (h : W ∈ sets.getD i []) :
    ∃ l, sets[i]? = some l ∧ W ∈ l := by
  rw [List.getD_eq_getElem?_getD] at h
  cases hs : sets[i]? with
  | none => rw [hs] at h; simp at h
  | some l => rw [hs] at h; exact ⟨l, rfl, h⟩

theorem getElem?_set_cases (sets : List (List Nat)) (p i : Nat) (x l : List Nat)
    (h : (sets.set p x)[i]? = some l) :
    (i = p ∧ l = x ∧ p < sets.length) ∨ (i ≠ p ∧ sets[i]? = some l) := by
  by_cases hi : p = i
  · subst hi
    rw [List.getElem?_set_self'] at h
    cases hs : sets[p]? with
    | none => rw [hs] at h; simp at h
    | some y =>
      rw [hs] at h
      simp at h
      have hlt : p < sets.length := by
        rcases Nat.lt_or_ge p sets.length with h1 | h1
        · exact h1
        · rw [List.getElem?_eq_none h1] at hs; cases hs
      exact Or.inl ⟨rfl, h.symm, hlt⟩
  · rw [List.getElem?_set_ne hi] at h
    exact Or.inr ⟨fun e => hi e.symm, h⟩

theorem setAdd_nodup (ws : Nat) (l : List Nat) (h : l.Nodup) : (setAdd ws l).Nodup := by
  unfold setAdd
  split_ifs with hm
  · exact h
  · rw [List.nodup_append]
    refine ⟨h, List.nodup_singleton ws, ?_⟩
    intro a ha hb
    simp at hb
    subst hb
    exact hm ha

theorem mem_setAdd (ws W : Nat) (l : List Nat) : W ∈ setAdd ws l ↔ W = ws ∨ W ∈ l := by
  unfold setAdd
  split_ifs with hm
  · constructor
    · intro h; exact Or.inr h
    · rintro (h | h)
      · subst h; exact hm
      · exact h
  · simp [or_comm]

theorem mem_setDelete (ws W : Nat) (l : List Nat) : W ∈ setDelete ws l ↔ W ∈ l ∧ W ≠ ws := by
  unfold setDelete
  simp

theorem setDelete_nodup (ws : Nat) (l : List Nat) (h : l.Nodup) : (setDelete ws l).Nodup :=
  h.filter _

/-- Reactions that keep the heap and, for every client that has not closed,
its captured set and the fact that it has not closed, keep the invariant. -/
theorem relayInvOn_mono (sets : List (List Nat)) (conns conns1 : List Conn)
    (h : RelayInvOn sets conns)
    (hc : ∀ (W : Nat) (c : Conn), conns[W]? = some c → c.readyState ≠ 3 →
      ∃ c1, conns1[W]? = some c1 ∧ c1.peers = c.peers ∧ c1.readyState ≠ 3) :
    RelayInvOn sets conns1 := by
  refine ⟨h.1, ?_⟩
  intro i l W hl hW
  obtain ⟨c, h1, h2, h3⟩ := h.2 i l W hl hW
  obtain ⟨c1, h4, h5, h6⟩ := hc W c h1 h3
  exact ⟨c1, h4, by rw [h5, h2], h6⟩

theorem relayInvOn_of_wiring (sets : List (List Nat)) (conns conns1 : List Conn)
    (h : RelayInvOn sets conns)
    (hw : ∀ (W : Nat), (conns1[W]?).map Conn.wiring = (conns[W]?).map Conn.wiring) :
    RelayInvOn sets conns1 := by
  apply relayInvOn_mono sets conns conns1 h
  intro W c hc h3
  have := hw W
  rw [hc] at this
  cases h1 : conns1[W]? with
  | none => rw [h1] at this; simp at this
  | some c1 =>
    rw [h1] at this
    simp only [Option.map_some', Option.some.injEq, Conn.wiring, Prod.mk.injEq] at this
    exact ⟨c1, rfl, this.2.1, by rw [this.2.2]; exact h3⟩

theorem relayInvOn_append_empty (sets : List (List Nat)) (conns : List Conn)
    (h : RelayInvOn sets conns) : RelayInvOn (sets ++ [[]]) conns := by
  have key : ∀ (i : Nat) (l : List Nat), (sets ++ [[]])[i]? = some l → sets[i]? = some l ∨ l = [] := by
    intro i l hl
    rcases Nat.lt_or_ge i sets.length with h1 | h1
    · rw [List.getElem?_append_left h1] at hl; exact Or.inl hl
    · rw [List.getElem?_append_right h1] at hl
      right
      cases hk : i - sets.length with
      | zero => rw [hk] at hl; simp at hl; exact hl
      | succ n => rw [hk] at hl; simp at hl
  constructor
  · intro i l hl
    rcases key i l hl with h1 | h1
    · exact h.1 i l h1
    · subst h1; exact List.nodup_nil
  · intro i l W hl hW
    rcases key i l hl with h1 | h1
    · exact h.2 i l W h1 hW
    · subst h1; simp at hW

/-- Admitting the new client `conns.length` into the set at address `p`. -/
theorem relayInvOn_admit (sets : List (List Nat)) (conns : List Conn) (p : Nat) (S : String)
    (h : RelayInvOn sets conns) :
    RelayInvOn (sets.set p (setAdd conns.length (sets.getD p [])))
      (conns ++ [{ sessionId := S, peers := p, readyState := 1, sent := [] }]) := by
  have hold : ∀ (i : Nat) (l : List Nat) (W : Nat), sets[i]? = some l → W ∈ l →
      ∃ c, (conns ++ [{ sessionId := S, peers := p, readyState := 1, sent := [] }])[W]? = some c ∧
        c.peers = i ∧ c.readyState ≠ 3 := by
    intro i l W hl hW
    obtain ⟨c, h1, h2, h3⟩ := h.2 i l W hl hW
    have hlt : W < conns.length := by
      rcases Nat.lt_or_ge W conns.length with h4 | h4
      · exact h4
      · rw [List.getElem?_eq_none h4] at h1; cases h1
    exact ⟨c, by rw [List.getElem?_append_left hlt]; exact h1, h2, h3⟩
  constructor
  · intro i l hl
    rcases getElem?_set_cases sets p i _ l hl with ⟨-, h2, h3⟩ | ⟨-, h2⟩
    · subst h2
      apply setAdd_nodup
      have : sets[p]? = some (sets.getD p []) := by
        rw [List.getD_eq_getElem?_getD, List.getElem?_eq_getElem h3]; rfl
      exact h.1 p _ this
    · exact h.1 i l h2
  · intro i l W hl hW
    rcases getElem?_set_cases sets p i _ l hl with ⟨h1, h2, h3⟩ | ⟨-, h2⟩
    · subst h2 h1
      rcases (mem_setAdd _ _ _).1 hW with h4 | h4
      · subst h4
        refine ⟨{ sessionId := S, peers := i, readyState := 1, sent := [] }, ?_, rfl, ?_⟩
        · simp
        · show (1 : Nat) ≠ 3
          decide
      · obtain ⟨l0, h5, h6⟩ := getD_mem sets i W h4
        exact hold i l0 W h5 h6
    · exact hold i l W h2 hW

/-- Running the `close` handler of client `ws`, which has not closed before. -/
theorem relayInvOn_close (sets : List (List Nat)) (conns : List Conn) (ws : Nat) (c : Conn)
    (h : RelayInvOn sets conns) (hc : conns[ws]? = some c) :
    RelayInvOn (sets.set c.peers (setDelete ws (sets.getD c.peers [])))
      (conns.set ws { c with readyState := 3 }) ∧
    ∀ (i : Nat) (l : List Nat), (sets.set c.peers (setDelete ws (sets.getD c.peers [])))[i]? = some l → ws ∉ l := by
  have hold : ∀ (i : Nat) (l : List Nat) (W : Nat), sets[i]? = some l → W ∈ l → (W = ws → i = c.peers) ∧
      (W ≠ ws → ∃ c1, (conns.set ws { c with readyState := 3 })[W]? = some c1 ∧
        c1.peers = i ∧ c1.readyState ≠ 3) := by
    intro i l W hl hW
    obtain ⟨c1, h1, h2, h3⟩ := h.2 i l W hl hW
    constructor
    · intro he
      subst he
      rw [hc] at h1
      injection h1 with h1
      subst h1
      exact h2.symm
    · intro hne
      exact ⟨c1, by rw [List.getElem?_set_ne (fun e => hne e.symm)]; exact h1, h2, h3⟩
  refine ⟨⟨?_, ?_⟩, ?_⟩
  · intro i l hl
    rcases getElem?_set_cases sets c.peers i _ l hl with ⟨-, h2, h3⟩ | ⟨-, h2⟩
    · subst h2
      apply setDelete_nodup
      have : sets[c.peers]? = some (sets.getD c.peers []) := by
        rw [List.getD_eq_getElem?_getD, List.getElem?_eq_getElem h3]; rfl
      exact h.1 _ _ this
    · exact h.1 i l h2
  · intro i l W hl hW
    rcases getElem?_set_cases sets c.peers i _ l hl with ⟨h1, h2, h3⟩ | ⟨h1, h2⟩
    · subst h2
      obtain ⟨h4, h5⟩ := (mem_setDelete _ _ _).1 hW
      obtain ⟨l0, h6, h7⟩ := getD_mem sets c.peers W h4
      rw [h1]
      exact (hold c.peers l0 W h6 h7).2 h5
    · have hne : W ≠ ws := by
        intro he
        exact h1 ((hold i l W h2 hW).1 he)
      exact (hold i l W h2 hW).2 hne
  · intro i l hl hW
    rcases getElem?_set_cases sets c.peers i _ l hl with ⟨h1, h2, h3⟩ | ⟨h1, h2⟩
    · subst h2
      exact ((mem_setDelete _ _ _).1 hW).2 rfl
    · exact h1 ((hold i l ws h2 hW).1 rfl)

/-- What a reaction does to the heap of sets and to the clients. -/
theorem step_relay (b64 : String → List Nat) (st st1 : State) (e : Event)
    (h : step b64 st e = some st1) :
    (st1.sets = st.sets ∧ st1.conns = st.conns) ∨
    (∃ (msg : Json) (ex : Nat) (l : List Nat), st1.sets = st.sets ∧
      st1.conns = l.foldl (deliver msg ex) st.conns ∧
      ∀ (W : Nat), W ∈ l → ∃ (q : Nat) (l0 : List Nat), st.sets[q]? = some l0 ∧ W ∈ l0) ∨
    (∃ (S : String) (q : Nat) (sets1 : List (List Nat)),
      (sets1 = st.sets ∨ sets1 = st.sets ++ [[]]) ∧
      st1.sets = sets1.set q (setAdd st.conns.length (sets1.getD q [])) ∧
      st1.conns = st.conns ++ [{ sessionId := S, peers := q, readyState := 1, sent := [] }]) ∨
    (∃ (ws : Nat) (c : Conn), st.conns[ws]? = some c ∧ c.readyState = 1 ∧ st1.sets = st.sets ∧
      st1.conns = st.conns.set ws { c with readyState := 2 }) ∨
    (∃ (ws : Nat) (c : Conn), st.conns[ws]? = some c ∧ c.readyState ≠ 3 ∧
      st1.sets = st.sets.set c.peers (setDelete ws (st.sets.getD c.peers [])) ∧
      st1.conns = st.conns.set ws { c with readyState := 3 }) := by
  cases e with
  | session action draws uuid now fuel =>
    left
    simp only [step, postSession] at h
    by_cases ha : action ≠ some "create"
    · rw [if_pos ha] at h
      simp at h
      subst h; exact ⟨rfl, rfl⟩
    · rw [if_neg ha] at h
      unfold createSession at h
      cases hp : pickCode st.CODE_TO_SESSION draws fuel 0 with
      | none => rw [hp] at h; simp at h
      | some c =>
        rw [hp] at h
        simp at h
        subst h; exact ⟨rfl, rfl⟩
  | resolve code now1 now2 =>
    simp only [step, Option.some.injEq] at h
    subst h; rw [resolve_fst]; exact Or.inl ⟨rfl, rfl⟩
  | upload req now =>
    simp only [step, Option.some.injEq] at h
    subst h
    obtain ⟨-, -, -, h4, h5⟩ := postUpload_frame b64 st req now
    exact Or.inl ⟨h4, h5⟩
  | download sessionId =>
    simp only [step, Option.some.injEq] at h
    subst h; rw [download_fst]; exact Or.inl ⟨rfl, rfl⟩
  | sweep now =>
    simp only [step, Option.some.injEq] at h
    subst h
    obtain ⟨-, -, -, -, h5, h6⟩ := sweepFold_monotone now st.CODE_TO_SESSION st
    exact Or.inl ⟨h5, h6⟩
  | upgrade pathname sessionId handshakeOk now =>
    simp only [step, Option.some.injEq] at h
    subst h
    unfold upgrade
    dsimp only
    split_ifs with h1 h2 h3
    · exact Or.inl ⟨rfl, rfl⟩
    · exact Or.inl ⟨rfl, rfl⟩
    · right; right; left
      unfold connection
      dsimp only
      by_cases hh : mapHas st.SESSION_TO_PEERS (sessionId.getD "") = true
      · rw [if_pos hh]
        exact ⟨_, _, st.sets, Or.inl rfl, rfl, rfl⟩
      · rw [if_neg hh]
        exact ⟨_, _, st.sets ++ [[]], Or.inr rfl, rfl, rfl⟩
    · exact Or.inl ⟨rfl, rfl⟩
  | message ws parsed =>
    simp only [step, Option.some.injEq] at h
    subst h
    split_ifs
    · exact Or.inl ⟨rfl, rfl⟩
    · unfold onMessage
      cases hc : st.conns.get? ws with
      | none => exact Or.inl ⟨rfl, rfl⟩
      | some c =>
        cases parsed with
        | none => exact Or.inl ⟨rfl, rfl⟩
        | some msg =>
          dsimp only
          split_ifs
          · unfold broadcast
            cases hp : mapGet st.SESSION_TO_PEERS c.sessionId with
            | none => exact Or.inl ⟨rfl, rfl⟩
            | some q =>
              right; left
              refine ⟨msg, ws, st.sets.getD q [], rfl, rfl, ?_⟩
              intro W hW
              obtain ⟨l0, h1, h2⟩ := getD_mem st.sets q W hW
              exact ⟨q, l0, h1, h2⟩
          · exact Or.inl ⟨rfl, rfl⟩
  | closing ws =>
    simp only [step, Option.some.injEq] at h
    subst h
    by_cases hr : readyStateOf st ws = 1
    · rw [if_pos hr]
      unfold readyStateOf at hr
      unfold startClosing
      cases hc : st.conns.get? ws with
      | none => rw [hc] at hr; simp at hr
      | some c =>
        rw [hc] at hr
        right; right; right; left
        rw [List.get?_eq_getElem?] at hc
        exact ⟨ws, c, hc, hr, rfl, rfl⟩
    · rw [if_neg hr]; exact Or.inl ⟨rfl, rfl⟩
  | close ws =>
    simp only [step, Option.some.injEq] at h
    subst h
    by_cases hr : readyStateOf st ws = 3
    · rw [if_pos hr]; exact Or.inl ⟨rfl, rfl⟩
    · rw [if_neg hr]
      unfold readyStateOf at hr
      unfold onClose
      cases hc : st.conns.get? ws with
      | none => rw [hc] at hr; simp at hr
      | some c =>
        rw [hc] at hr
        right; right; right; right
        rw [List.get?_eq_getElem?] at hc
        exact ⟨ws, c, hc, hr, rfl, rfl⟩

/-- Every reaction keeps the relay invariant and leaves a closed client as it is. -/
theorem step_relayInv (b64 : String → List Nat) (st st1 : State) (e : Event)
    (hinv : RelayInv st) (h : step b64 st e = some st1) :
    RelayInv st1 ∧
    ∀ (W : Nat) (c : Conn), st.conns[W]? = some c → c.readyState = 3 → st1.conns[W]? = some c := by
  unfold RelayInv at hinv ⊢
  rcases step_relay b64 st st1 e h with ⟨h1, h2⟩ | ⟨msg, ex, l, h1, h2, h3⟩ |
    ⟨S, q, sets1, h0, h1, h2⟩ | ⟨ws, c, hc, hr, h1, h2⟩ | ⟨ws, c, hc, hr, h1, h2⟩
  · rw [h1, h2]
    exact ⟨hinv, fun W c hc _ => hc⟩
  · rw [h1, h2]
    constructor
    · exact relayInvOn_of_wiring _ _ _ hinv (fun W => foldl_deliver_wiring msg ex l st.conns W)
    · intro W c hc hr
      rw [foldl_deliver_not_mem msg ex l st.conns W]
      · exact hc
      · intro hW
        obtain ⟨q, l0, h4, h5⟩ := h3 W hW
        obtain ⟨c1, h6, -, h7⟩ := hinv.2 q l0 W h4 h5
        rw [hc] at h6
        injection h6 with h6
        subst h6
        exact h7 hr
  · rw [h1, h2]
    constructor
    · rcases h0 with h0 | h0
      · subst h0; exact relayInvOn_admit _ _ q S hinv
      · subst h0; exact relayInvOn_admit _ _ q S (relayInvOn_append_empty _ _ hinv)
    · intro W c hc _
      have hlt : W < st.conns.length := by
        rcases Nat.lt_or_ge W st.conns.length with h4 | h4
        · exact h4
        · rw [List.getElem?_eq_none h4] at hc; cases hc
      rw [List.getElem?_append_left hlt]; exact hc
  · rw [h1, h2]
    have hset : ∀ (W : Nat) (c0 : Conn), st.conns[W]? = some c0 → W ≠ ws →
        (st.conns.set ws { c with readyState := 2 })[W]? = some c0 := by
      intro W c0 h4 hne
      rw [List.getElem?_set_ne (fun e => hne e.symm)]; exact h4
    constructor
    · apply relayInvOn_mono _ _ _ hinv
      intro W c0 h4 h5
      by_cases hW : W = ws
      · subst hW
        rw [hc] at h4
        injection h4 with h4
        subst h4
        have hlt : W < st.conns.length := by
          rcases Nat.lt_or_ge W st.conns.length with h6 | h6
          · exact h6
          · rw [List.getElem?_eq_none h6] at hc; cases hc
        refine ⟨{ c with readyState := 2 }, List.getElem?_set_self hlt, rfl, ?_⟩
        show (2 : Nat) ≠ 3
        decide
      · exact ⟨c0, hset W c0 h4 hW, rfl, h5⟩
    · intro W c0 h4 h5
      apply hset W c0 h4
      intro hW
      subst hW
      rw [hc] at h4
      injection h4 with h4
      subst h4
      rw [hr] at h5
      cases h5
  · rw [h1, h2]
    refine ⟨(relayInvOn_close _ _ ws c hinv hc).1, ?_⟩
    intro W c0 h4 h5
    have hW : W ≠ ws := by
      intro hW
      subst hW
      rw [hc] at h4
      injection h4 with h4
      subst h4
      exact hr h5
    rw [List.getElem?_set_ne (fun e => hW e.symm)]; exact h4

theorem reachable_relayInv (b64 : String → List Nat) (st : State) (h : Reachable b64 st) :
    RelayInv st := by
  refine reachable_induction b64 RelayInv ?_ ?_ st h
  · constructor
    · intro i l hl; simp [State.init] at hl
    · intro i l W hl; simp [State.init] at hl
  · intro s e s1 hp hs
    exact (step_relayInv b64 s s1 e hp hs).1

/-- Along any sequence of reactions the invariant is kept and a closed client
stays exactly as it is. -/
theorem run_closed_unchanged (b64 : String → List Nat) (es : List Event) (st st2 : State)
    (W : Nat) (c : Conn) (hinv : RelayInv st) (hc : st.conns[W]? = some c)
    (h3 : c.readyState = 3) (hrun : run b64 st es = some st2) :
    RelayInv st2 ∧ st2.conns[W]? = some c := by
  induction es generalizing st with
  | nil => simp [run] at hrun; subst hrun; exact ⟨hinv, hc⟩
  | cons e es ih =>
    simp only [run] at hrun
    cases hs : step b64 st e with
    | none => rw [hs] at hrun; simp at hrun
    | some s1 =>
      rw [hs] at hrun
      obtain ⟨h1, h2⟩ := step_relayInv b64 st s1 e hinv hs
      exact ih s1 h1 (h2 W c hc h3) hrun

theorem closed_not_member (st : State) (hinv : RelayInv st) (W : Nat) (c : Conn)
    (hc : st.conns[W]? = some c) (h3 : c.readyState = 3) :
    ∀ (i : Nat) (l : List Nat), st.sets[i]? = some l → W ∉ l := by
  intro i l hl hW
  obtain ⟨c1, h6, -, h7⟩ := hinv.2 i l W hl hW
  rw [hc] at h6
  injection h6 with h6
  subst h6
  exact h7 h3

/-! ## What a sweep removes and what it keeps -/

theorem mem_of_mapGet {β : Type} (m : List (String × β)) (k : String) (v : β)
    (h : mapGet m k = some v) : (k, v) ∈ m := by
  induction m with
  | nil => simp [mapGet] at h
  | cons e m ih =>
    obtain ⟨a, b⟩ := e
    by_cases hk : a = k
    · subst hk
      simp [mapGet] at h
      subst h
      exact List.mem_cons_self _ _
    · simp only [mapGet, hk, if_false] at h
      exact List.mem_cons_of_mem _ (ih h)

theorem mapGet_of_mem_nodup {β : Type} (m : List (String × β)) (k : String) (v : β)
    (hnd : (m.map Prod.fst).Nodup) (h : (k, v) ∈ m) : mapGet m k = some v := by
  induction m with
  | nil => simp at h
  | cons e m ih =>
    obtain ⟨a, b⟩ := e
    simp only [List.map_cons, List.nodup_cons] at hnd
    simp only [List.mem_cons, Prod.mk.injEq] at h
    rcases h with ⟨h1, h2⟩ | h
    · subst h1 h2; simp [mapGet]
    · have hne : ¬ a = k := by
        intro he
        subst he
        exact hnd.1 (List.mem_map.2 ⟨(a, v), h, rfl⟩)
      simp only [mapGet, hne, if_false]
      exact ih hnd.2 h

theorem mem_keys_mapDelete {β : Type} (m : List (String × β)) (k x : String)
    (h : x ∈ (mapDelete m k).map Prod.fst) : x ∈ m.map Prod.fst := by
  induction m with
  | nil => simp [mapDelete] at h
  | cons e m ih =>
    obtain ⟨a, b⟩ := e
    by_cases hk : a = k
    · simp only [mapDelete, hk, if_true] at h
      exact List.mem_cons_of_mem _ (ih h)
    · simp only [mapDelete, hk, if_false, List.map_cons, List.mem_cons] at h ⊢
      rcases h with h | h
      · exact Or.inl h
      · exact Or.inr (ih h)

theorem mapDelete_keys_nodup {β : Type} (m : List (String × β)) (k : String)
    (h : (m.map Prod.fst).Nodup) : ((mapDelete m k).map Prod.fst).Nodup := by
  induction m with
  | nil => simp [mapDelete]
  | cons e m ih =>
    obtain ⟨a, b⟩ := e
    simp only [List.map_cons, List.nodup_cons] at h
    by_cases hk : a = k
    · simp only [mapDelete, hk, if_true]
      exact ih h.2
    · simp only [mapDelete, hk, if_false, List.map_cons, List.nodup_cons]
      exact ⟨fun hm => h.1 (mem_keys_mapDelete m k a hm), ih h.2⟩

theorem expiredAt_of_none_or_eq (e0 e1 : Option Nat) (now : Nat)
    (h : e1 = none ∨ e1 = e0) (hx : expiredAt e0 now = true) : expiredAt e1 now = true := by
  rcases h with h | h
  · subst h; rfl
  · subst h; exact hx

/-- An entry visited while its session is expired or without expiry is removed
from all four stores, and stays removed to the end of the loop. -/
theorem sweepFold_removes (now : Nat) (l : List (String × String)) (st : State)
    (c0 sid : String) (hmem : (c0, sid) ∈ l)
    (hx : expiredAt (mapGet st.SESSION_EXPIRY sid) now = true) :
    mapGet (l.foldl (sweepEntry now) st).CODE_TO_SESSION c0 = none ∧
    mapGet (l.foldl (sweepEntry now) st).SESSION_EXPIRY sid = none ∧
    mapGet (l.foldl (sweepEntry now) st).SESSION_TO_PEERS sid = none ∧
    mapGet (l.foldl (sweepEntry now) st).UPLOAD_STORE sid = none := by
  induction l generalizing st with
  | nil => simp at hmem
  | cons e l ih =>
    simp only [List.foldl_cons]
    simp only [List.mem_cons] at hmem
    rcases hmem with hm | hm
    · subst hm
      obtain ⟨h1, h2, h3, h4, -, -⟩ := sweepFold_monotone now l (sweepEntry now st (c0, sid))
      have hs : sweepEntry now st (c0, sid) =
          { st with
            CODE_TO_SESSION := mapDelete st.CODE_TO_SESSION c0
            SESSION_EXPIRY := mapDelete st.SESSION_EXPIRY sid
            SESSION_TO_PEERS := mapDelete st.SESSION_TO_PEERS sid
            UPLOAD_STORE := mapDelete st.UPLOAD_STORE sid } := by
        simp only [sweepEntry, hx, if_true]
      rw [hs] at h1 h2 h3 h4 ⊢
      refine ⟨?_, ?_, ?_, ?_⟩
      · rcases h1 c0 with h | h
        · exact h
        · rw [h]; exact mapGet_mapDelete_self _ _
      · rcases h2 sid with h | h
        · exact h
        · rw [h]; exact mapGet_mapDelete_self _ _
      · rcases h4 sid with h | h
        · exact h
        · rw [h]; exact mapGet_mapDelete_self _ _
      · rcases h3 sid with h | h
        · exact h
        · rw [h]; exact mapGet_mapDelete_self _ _
    · apply ih _ hm
      exact expiredAt_of_none_or_eq _ _ now (sweepEntry_expiry now st e sid) hx

/-- The expiry entry of a session that is not expired survives the loop. -/
theorem sweepEntry_keeps_expiry (now : Nat) (st : State) (e : String × String) (s : String)
    (hx : expiredAt (mapGet st.SESSION_EXPIRY s) now = false) :
    mapGet (sweepEntry now st e).SESSION_EXPIRY s = mapGet st.SESSION_EXPIRY s := by
  unfold sweepEntry
  split_ifs with h
  · have hne : s ≠ e.2 := by
      intro he
      subst he
      rw [h] at hx
      cases hx
    exact mapGet_mapDelete_other _ _ _ hne
  · rfl

theorem sweepFold_keeps_code (now : Nat) (l : List (String × String)) (st : State) (c : String)
    (h : ∀ (e : String × String), e ∈ l → e.1 = c →
      expiredAt (mapGet st.SESSION_EXPIRY e.2) now = false) :
    mapGet (l.foldl (sweepEntry now) st).CODE_TO_SESSION c = mapGet st.CODE_TO_SESSION c := by
  induction l generalizing st with
  | nil => rfl
  | cons e l ih =>
    simp only [List.foldl_cons]
    have hcode : mapGet (sweepEntry now st e).CODE_TO_SESSION c = mapGet st.CODE_TO_SESSION c := by
      unfold sweepEntry
      split_ifs with hx
      · have hne : c ≠ e.1 := by
          intro he
          have := h e (List.mem_cons_self _ _) he.symm
          rw [hx] at this
          cases this
        exact mapGet_mapDelete_other _ _ _ hne
      · rfl
    rw [ih (sweepEntry now st e), hcode]
    intro e1 he1 hc
    rw [sweepEntry_keeps_expiry now st e e1.2 (h e1 (List.mem_cons_of_mem _ he1) hc)]
    exact h e1 (List.mem_cons_of_mem _ he1) hc

theorem sweepFold_keys_nodup (now : Nat) (l : List (String × String)) (st : State)
    (h : (st.CODE_TO_SESSION.map Prod.fst).Nodup) :
    ((l.foldl (sweepEntry now) st).CODE_TO_SESSION.map Prod.fst).Nodup := by
  induction l generalizing st with
  | nil => exact h
  | cons e l ih =>
    simp only [List.foldl_cons]
    apply ih
    unfold sweepEntry
    split_ifs
    · exact mapDelete_keys_nodup _ _ h
    · exact h

/-! ## Invariant of the registry: every expiry entry has a code -/

theorem cleanExpired_registryInv (st : State) (now : Nat) (h : RegistryInv st) :
    RegistryInv (cleanExpired st now) := by
  refine ⟨sweepFold_keys_nodup now _ st h.1, ?_⟩
  intro s hs
  obtain ⟨-, h2, -⟩ := sweepFold_monotone now st.CODE_TO_SESSION st
  have hs0 : mapGet (cleanExpired st now).SESSION_EXPIRY s = mapGet st.SESSION_EXPIRY s := by
    rcases h2 s with h3 | h3
    · exact absurd h3 hs
    · exact h3
  obtain ⟨c, hc⟩ := h.2 s (by rw [← hs0]; exact hs)
  have hlive : expiredAt (mapGet st.SESSION_EXPIRY s) now = false := by
    cases hx : expiredAt (mapGet st.SESSION_EXPIRY s) now with
    | false => rfl
    | true =>
      exfalso
      exact hs (sweepFold_removes now _ st c s (mem_of_mapGet _ _ _ hc) hx).2.1
  refine ⟨c, ?_⟩
  unfold cleanExpired
  rw [sweepFold_keeps_code now _ st c]
  · exact hc
  · intro e he hec
    have : mapGet st.CODE_TO_SESSION e.1 = some e.2 := mapGet_of_mem_nodup _ _ _ h.1 he
    rw [hec, hc] at this
    injection this with this
    rw [← this]
    exact hlive

theorem reachable_registryInv (b64 : String → List Nat) (st : State) (h : Reachable b64 st) :
    RegistryInv st := by
  refine reachable_induction b64 RegistryInv ?_ ?_ st h
  · exact ⟨List.nodup_nil, fun s hs => absurd rfl hs⟩
  · intro s e s1 hp hs
    rcases step_registry b64 s s1 e hs with hreg | ⟨draws, uuid, now, fuel, code, hcs⟩ | ⟨now, hsw⟩
    · have h1 : s1.CODE_TO_SESSION = s.CODE_TO_SESSION := congrArg Prod.fst hreg
      have h2 : s1.SESSION_EXPIRY = s.SESSION_EXPIRY := congrArg Prod.snd hreg
      unfold RegistryInv
      rw [h1, h2]; exact hp
    · obtain ⟨-, hfree, hself, hother, hnd⟩ :=
        createSession_spec s draws uuid now fuel s1 code uuid hcs
      refine ⟨hnd hp.1, ?_⟩
      intro x hx
      by_cases hxu : x = uuid
      · subst hxu; exact ⟨code, hself⟩
      · have hexp : mapGet s1.SESSION_EXPIRY x = mapGet s.SESSION_EXPIRY x := by
          unfold createSession at hcs
          cases hpk : pickCode s.CODE_TO_SESSION draws fuel 0 with
          | none => rw [hpk] at hcs; simp at hcs
          | some c0 =>
            rw [hpk] at hcs
            simp at hcs
            rw [← hcs.1]
            exact mapGet_mapSet_other _ _ _ _ hxu
        rw [hexp] at hx
        obtain ⟨c, hc⟩ := hp.2 x hx
        refine ⟨c, ?_⟩
        have hne : c ≠ code := by
          intro he
          subst he
          rw [mapHas_eq_false_iff, hc] at hfree
          cases hfree
        rw [hother c hne]; exact hc
    · subst hsw; exact cleanExpired_registryInv s now hp

theorem fullState_codes : fullState.CODE_TO_SESSION = fullCodes := by
  unfold fullState
  with_reducible rfl

/-! ## A swept session stays dead -/

theorem createSession_shape (st : State) (draws : Nat → Nat) (uuid : String) (now fuel : Nat)
    (st1 : State) (code sessionId : String)
    (h : createSession st draws uuid now fuel = some (st1, code, sessionId)) :
    st1 = { st with
            CODE_TO_SESSION := mapSet st.CODE_TO_SESSION code uuid
            SESSION_EXPIRY := mapSet st.SESSION_EXPIRY uuid (now + CODE_EXPIRY_MS) } ∧
    sessionId = uuid := by
  unfold createSession at h
  cases hp : pickCode st.CODE_TO_SESSION draws fuel 0 with
  | none => rw [hp] at h; simp at h
  | some c =>
    rw [hp] at h
    simp only [Option.some.injEq, Prod.mk.injEq] at h
    obtain ⟨h1, h2, h3⟩ := h
    subst h2
    exact ⟨h1.symm, h3.symm⟩

theorem uploadHandler_store (b64 : String → List Nat) (st : State) (body : UploadBody)
    (now : Nat) :
    (uploadHandler b64 st body now).1.UPLOAD_STORE = st.UPLOAD_STORE ∨
    ∃ (S : String) (blob : Blob), expiredAt (mapGet st.SESSION_EXPIRY S) now = false ∧
      (uploadHandler b64 st body now).1.UPLOAD_STORE = mapSet st.UPLOAD_STORE S blob := by
  unfold uploadHandler
  dsimp only
  split_ifs with h1 h2 h3 h4
  · exact Or.inl rfl
  · exact Or.inl rfl
  · exact Or.inl rfl
  · right
    exact ⟨_, _, by simpa using h2, rfl⟩
  · right
    exact ⟨_, _, by simpa using h2, rfl⟩

theorem postUpload_store (b64 : String → List Nat) (st : State) (req : UploadRequest)
    (now : Nat) :
    (postUpload b64 st req now).1.UPLOAD_STORE = st.UPLOAD_STORE ∨
    ∃ (S : String) (blob : Blob), expiredAt (mapGet st.SESSION_EXPIRY S) now = false ∧
      (postUpload b64 st req now).1.UPLOAD_STORE = mapSet st.UPLOAD_STORE S blob := by
  unfold postUpload
  split_ifs
  · exact Or.inl rfl
  · exact uploadHandler_store b64 st req.body now

theorem connection_peers (st : State) (S : String) :
    (connection st S).1.SESSION_TO_PEERS = st.SESSION_TO_PEERS ∨
    ∃ (q : Nat), (connection st S).1.SESSION_TO_PEERS = mapSet st.SESSION_TO_PEERS S q := by
  unfold connection
  dsimp only
  split_ifs
  · exact Or.inl rfl
  · exact Or.inr ⟨_, rfl⟩

theorem upgrade_peers (st : State) (pathname : String) (sessionId : Option String)
    (handshakeOk : Bool) (now : Nat) :
    (upgrade st pathname sessionId handshakeOk now).1.SESSION_TO_PEERS = st.SESSION_TO_PEERS ∨
    ∃ (S : String) (q : Nat), expiredAt (mapGet st.SESSION_EXPIRY S) now = false ∧
      (upgrade st pathname sessionId handshakeOk now).1.SESSION_TO_PEERS =
        mapSet st.SESSION_TO_PEERS S q := by
  unfold upgrade
  dsimp only
  split_ifs with h1 h2 h3
  · exact Or.inl rfl
  · exact Or.inl rfl
  · cases sessionId with
    | none => simp [jsFalsy] at h2
    | some S =>
      simp only [Bool.or_eq_true, not_or, Bool.not_eq_true] at h2
      rcases connection_peers st S with h | ⟨q, h⟩
      · exact Or.inl h
      · exact Or.inr ⟨S, q, h2.2, h⟩
  · exact Or.inl rfl

theorem onClose_peers (st : State) (ws : Nat) :
    (onClose st ws).SESSION_TO_PEERS = st.SESSION_TO_PEERS ∨
    ∃ (S : String), (onClose st ws).SESSION_TO_PEERS = mapDelete st.SESSION_TO_PEERS S := by
  unfold onClose
  cases st.conns.get? ws with
  | none => exact Or.inl rfl
  | some c =>
    dsimp only
    split_ifs
    · exact Or.inr ⟨_, rfl⟩
    · exact Or.inl rfl

theorem mapGet_mapSet_none {β : Type} (m : List (String × β)) (k k' : String) (v : β)
    (hne : k' ≠ k) (h : mapGet m k' = none) : mapGet (mapSet m k v) k' = none := by
  rw [mapGet_mapSet_other m k k' v hne]; exact h

/-- A reaction that does not issue `sid` again keeps a dead session dead. -/
theorem step_dead (b64 : String → List Nat) (st st1 : State) (e : Event) (sid : String)
    (hd : Dead st sid) (hne : ¬ e.issues sid) (h : step b64 st e = some st1) :
    Dead st1 sid := by
  obtain ⟨d1, d2, d3, d4⟩ := hd
  have live_ne : ∀ (S : String) (now : Nat),
      expiredAt (mapGet st.SESSION_EXPIRY S) now = false → sid ≠ S := by
    intro S now hl he
    subst he
    rw [d2] at hl
    cases hl
  cases e with
  | session action draws uuid now fuel =>
    have hu : uuid ≠ sid := hne
    simp only [step, postSession] at h
    by_cases ha : action ≠ some "create"
    · rw [if_pos ha] at h
      simp at h
      subst h; exact ⟨d1, d2, d3, d4⟩
    · rw [if_neg ha] at h
      cases hc : createSession st draws uuid now fuel with
      | none => rw [hc] at h; simp at h
      | some r =>
        obtain ⟨s2, code, sess⟩ := r
        rw [hc] at h
        simp at h
        subst h
        obtain ⟨hshape, -⟩ := createSession_shape st draws uuid now fuel s2 code sess hc
        subst hshape
        refine ⟨?_, ?_, d3, d4⟩
        · intro c
          by_cases hcc : c = code
          · subst hcc
            show mapGet (mapSet st.CODE_TO_SESSION c uuid) c ≠ some sid
            rw [mapGet_mapSet_self]
            intro he
            injection he with he
            exact hu he
          · show mapGet (mapSet st.CODE_TO_SESSION code uuid) c ≠ some sid
            rw [mapGet_mapSet_other _ _ _ _ hcc]
            exact d1 c
        · exact mapGet_mapSet_none _ _ _ _ (fun e => hu e.symm) d2
  | resolve code now1 now2 =>
    simp only [step, Option.some.injEq] at h
    subst h; rw [resolve_fst]; exact ⟨d1, d2, d3, d4⟩
  | upload req now =>
    simp only [step, Option.some.injEq] at h
    subst h
    obtain ⟨h1, h2, h3, -, -⟩ := postUpload_frame b64 st req now
    unfold Dead
    rw [h1, h2, h3]
    refine ⟨d1, d2, d3, ?_⟩
    rcases postUpload_store b64 st req now with hs | ⟨S, blob, hl, hs⟩
    · rw [hs]; exact d4
    · rw [hs]; exact mapGet_mapSet_none _ _ _ _ (live_ne S now hl) d4
  | download sessionId =>
    simp only [step, Option.some.injEq] at h
    subst h; rw [download_fst]; exact ⟨d1, d2, d3, d4⟩
  | sweep now =>
    simp only [step, Option.some.injEq] at h
    subst h
    obtain ⟨h1, h2, h3, h4, -, -⟩ := sweepFold_monotone now st.CODE_TO_SESSION st
    refine ⟨?_, ?_, ?_, ?_⟩
    · intro c
      rcases h1 c with hh | hh
      · unfold cleanExpired; rw [hh]; simp
      · unfold cleanExpired; rw [hh]; exact d1 c
    · rcases h2 sid with hh | hh
      · exact hh
      · unfold cleanExpired; rw [hh]; exact d2
    · rcases h4 sid with hh | hh
      · exact hh
      · unfold cleanExpired; rw [hh]; exact d3
    · rcases h3 sid with hh | hh
      · exact hh
      · unfold cleanExpired; rw [hh]; exact d4
  | upgrade pathname sessionId handshakeOk now =>
    simp only [step, Option.some.injEq] at h
    subst h
    obtain ⟨h1, h2, h3⟩ := upgrade_frame st pathname sessionId handshakeOk now
    unfold Dead
    rw [h1, h2, h3]
    refine ⟨d1, d2, ?_, d4⟩
    rcases upgrade_peers st pathname sessionId handshakeOk now with hs | ⟨S, q, hl, hs⟩
    · rw [hs]; exact d3
    · rw [hs]; exact mapGet_mapSet_none _ _ _ _ (live_ne S now hl) d3
  | message ws parsed =>
    simp only [step, Option.some.injEq] at h
    subst h
    split_ifs
    · exact ⟨d1, d2, d3, d4⟩
    · obtain ⟨h1, h2, h3, h4, -⟩ := onMessage_frame st ws parsed
      unfold Dead
      rw [h1, h2, h3, h4]; exact ⟨d1, d2, d3, d4⟩
  | closing ws =>
    simp only [step, Option.some.injEq] at h
    subst h
    split_ifs
    · obtain ⟨h1, h2, h3, h4, -⟩ := startClosing_frame st ws
      unfold Dead
      rw [h1, h2, h3, h4]; exact ⟨d1, d2, d3, d4⟩
    · exact ⟨d1, d2, d3, d4⟩
  | close ws =>
    simp only [step, Option.some.injEq] at h
    subst h
    split_ifs
    · exact ⟨d1, d2, d3, d4⟩
    · obtain ⟨h1, h2, h3⟩ := onClose_frame st ws
      unfold Dead
      rw [h1, h2, h3]
      refine ⟨d1, d2, ?_, d4⟩
      rcases onClose_peers st ws with hs | ⟨S, hs⟩
      · rw [hs]; exact d3
      · rw [hs]; exact mapGet_mapDelete_none _ _ _ d3

theorem run_dead (b64 : String → List Nat) (es : List Event) (st st2 : State) (sid : String)
    (hd : Dead st sid) (hne : ∀ (e : Event), e ∈ es → ¬ e.issues sid)
    (hrun : run b64 st es = some st2) : Dead st2 sid := by
  induction es generalizing st with
  | nil => simp [run] at hrun; subst hrun; exact hd
  | cons e es ih =>
    simp only [run] at hrun
    cases hs : step b64 st e with
    | none => rw [hs] at hrun; simp at hrun
    | some s1 =>
      rw [hs] at hrun
      exact ih s1 (step_dead b64 st s1 e sid hd (hne e (List.mem_cons_self _ _)) hs)
        (fun e1 he1 => hne e1 (List.mem_cons_of_mem _ he1)) hrun

theorem resolve_sessionId (st : State) (code : Option String) (now1 now2 : Nat) (s : String)
    (h : (resolve st code now1 now2).2.sessionId = some s) :
    ∃ (c : String), mapGet st.CODE_TO_SESSION c = some s := by
  unfold resolve at h
  cases code with
  | none => simp [ResolveResponse.sessionId] at h
  | some c =>
    dsimp only at h
    split_ifs at h with h1
    · simp [ResolveResponse.sessionId] at h
    · cases hg : mapGet st.CODE_TO_SESSION c with
      | none => rw [hg] at h; simp [ResolveResponse.sessionId] at h
      | some s0 =>
        rw [hg] at h
        dsimp only at h
        split_ifs at h
        · simp [ResolveResponse.sessionId] at h
        · simp only [ResolveResponse.sessionId, Option.some.injEq] at h
          subst h
          exact ⟨c, hg⟩

theorem dead_denied (st : State) (sid : String) (hd : Dead st sid) :
    (∀ (code : Option String) (now1 now2 : Nat),
      (resolve st code now1 now2).2.sessionId ≠ some sid) ∧
    (∀ (handshakeOk : Bool) (t : Nat),
      (upgrade st "/ws" (some sid) handshakeOk t).2 = .destroyed ∧
      (upgrade st "/ws" (some sid) handshakeOk t).1 = st) ∧
    (download st sid).2 = .notFound := by
  obtain ⟨d1, d2, d3, d4⟩ := hd
  refine ⟨?_, ?_, ?_⟩
  · intro code now1 now2 h
    obtain ⟨c, hc⟩ := resolve_sessionId st code now1 now2 sid h
    exact d1 c hc
  · intro ok t
    simp [upgrade, d2, expiredAt]
  · simp [download, d4]

/-! ## The retry loop of `createSession` -/

theorem pickCode_first_free (codes : List (String × String)) (draws : Nat → Nat) (n : Nat)
    (hfree : mapHas codes (generateCode (draws n)) = false) :
    ∀ (fuel i : Nat), i ≤ n →
      (∀ (j : Nat), i ≤ j → j < n → mapHas codes (generateCode (draws j)) = true) →
      n - i < fuel → pickCode codes draws fuel i = some (generateCode (draws n)) := by
  intro fuel
  induction fuel with
  | zero => intro i _ _ h; omega
  | succ f ih =>
    intro i hi hb hf
    simp only [pickCode]
    by_cases hin : i = n
    · subst hin
      rw [hfree]; simp
    · have hlt : i < n := by omega
      rw [hb i (le_refl i) hlt]
      simp only [if_true]
      exact ih (i + 1) (by omega) (fun j h1 h2 => hb j (by omega) h2) (by omega)

theorem pickCode_all_bound (codes : List (String × String)) (draws : Nat → Nat) :
    ∀ (fuel i : Nat),
      (∀ (j : Nat), i ≤ j → j < i + fuel → mapHas codes (generateCode (draws j)) = true) →
      pickCode codes draws fuel i = none := by
  intro fuel
  induction fuel with
  | zero => intro i _; rfl
  | succ f ih =>
    intro i hb
    simp only [pickCode]
    rw [hb i (le_refl i) (by omega)]
    simp only [if_true]
    exact ih (i + 1) (fun j h1 h2 => hb j (by omega) (by omega))

theorem fullCodes_has (k : Nat) : mapHas fullCodes (generateCode k) = true := by
  obtain ⟨h1, h2⟩ := codeValue_range k
  cases hh : mapHas fullCodes (generateCode k) with
  | true => rfl
  | false =>
    exfalso
    rw [mapHas_eq_false_iff, mapGet_eq_none_iff] at hh
    apply hh
    unfold fullCodes
    rw [List.map_map, List.mem_map]
    refine ⟨codeValue k - 1000, List.mem_range.2 (by omega), ?_⟩
    have he : 1000 + (codeValue k - 1000) = codeValue k := by omega
    simp only [Function.comp, generateCode, he]

/-! ## Invariant of the stores -/

theorem storeInv_init : StoreInv State.init := by
  refine ⟨List.nodup_nil, ?_, ?_, ?_⟩
  · intro c1 c2 s h1; simp [State.init, mapGet] at h1
  · intro s
    constructor
    · rintro ⟨c, hc⟩; simp [State.init, mapGet] at hc
    · intro h; exact absurd rfl h
  · intro s h; exact absurd rfl h

theorem sweepFold_keeps_expiry (now : Nat) (l : List (String × String)) (st : State)
    (s : String) (hx : expiredAt (mapGet st.SESSION_EXPIRY s) now = false) :
    mapGet (l.foldl (sweepEntry now) st).SESSION_EXPIRY s = mapGet st.SESSION_EXPIRY s := by
  induction l generalizing st with
  | nil => rfl
  | cons e l ih =>
    simp only [List.foldl_cons]
    have h1 := sweepEntry_keeps_expiry now st e s hx
    rw [ih (sweepEntry now st e) (by rw [h1]; exact hx), h1]

/-- A session that has a code and is not expired keeps its expiry entry in a
sweep; one that is expired loses its code. -/
theorem cleanExpired_code_survives (st : State) (now : Nat) (c s : String)
    (h : mapGet (cleanExpired st now).CODE_TO_SESSION c = some s) :
    mapGet st.CODE_TO_SESSION c = some s ∧
    mapGet (cleanExpired st now).SESSION_EXPIRY s = mapGet st.SESSION_EXPIRY s ∧
    expiredAt (mapGet st.SESSION_EXPIRY s) now = false := by
  have h0 : mapGet st.CODE_TO_SESSION c = some s := by
    rcases (sweepFold_monotone now st.CODE_TO_SESSION st).1 c with hh | hh
    · unfold cleanExpired at h; rw [hh] at h; cases h
    · unfold cleanExpired at h; rw [hh] at h; exact h
  have hlive : expiredAt (mapGet st.SESSION_EXPIRY s) now = false := by
    cases hx : expiredAt (mapGet st.SESSION_EXPIRY s) now with
    | false => rfl
    | true =>
      exfalso
      have := (sweepFold_removes now st.CODE_TO_SESSION st c s (mem_of_mapGet _ _ _ h0) hx).1
      unfold cleanExpired at h
      rw [this] at h
      cases h
  exact ⟨h0, sweepFold_keeps_expiry now _ st s hlive, hlive⟩

theorem expiredAt_false_ne_none (e : Option Nat) (now : Nat) (h : expiredAt e now = false) :
    e ≠ none := by
  intro he
  subst he
  cases h

theorem storeInv_sweep (st : State) (now : Nat) (h : StoreInv st) :
    StoreInv (cleanExpired st now) := by
  obtain ⟨hnd, hinj, hval, hup⟩ := h
  have hreg : RegistryInv st := ⟨hnd, fun s hs => (hval s).2 hs⟩
  obtain ⟨hnd1, hcode1⟩ := cleanExpired_registryInv st now hreg
  refine ⟨hnd1, ?_, ?_, ?_⟩
  · intro c1 c2 s h1 h2
    exact hinj c1 c2 s (cleanExpired_code_survives st now c1 s h1).1
      (cleanExpired_code_survives st now c2 s h2).1
  · intro s
    constructor
    · rintro ⟨c, hc⟩
      obtain ⟨-, h2, h3⟩ := cleanExpired_code_survives st now c s hc
      rw [h2]
      exact expiredAt_false_ne_none _ now h3
    · intro hs; exact hcode1 s hs
  · intro s hs
    obtain ⟨-, -, h3, -⟩ := sweepFold_monotone now st.CODE_TO_SESSION st
    have hs0 : mapGet st.UPLOAD_STORE s ≠ none := by
      rcases h3 s with hh | hh
      · exact absurd hh hs
      · intro hn
        apply hs
        unfold cleanExpired
        rw [hh]; exact hn
    obtain ⟨c, hc⟩ := (hval s).2 (hup s hs0)
    have hlive : expiredAt (mapGet st.SESSION_EXPIRY s) now = false := by
      cases hx : expiredAt (mapGet st.SESSION_EXPIRY s) now with
      | false => rfl
      | true =>
        exfalso
        exact hs (sweepFold_removes now st.CODE_TO_SESSION st c s (mem_of_mapGet _ _ _ hc) hx).2.2.2
    unfold cleanExpired
    rw [sweepFold_keeps_expiry now _ st s hlive]
    exact expiredAt_false_ne_none _ now hlive

theorem storeInv_create (st st1 : State) (draws : Nat → Nat) (uuid : String) (now fuel : Nat)
    (code : String) (h : StoreInv st) (hfresh : mapGet st.SESSION_EXPIRY uuid = none)
    (hc : createSession st draws uuid now fuel = some (st1, code, uuid)) : StoreInv st1 := by
  obtain ⟨hnd, hinj, hval, hup⟩ := h
  obtain ⟨-, hfree, hself, hother, hnd1⟩ := createSession_spec st draws uuid now fuel st1 code uuid hc
  obtain ⟨hshape, -⟩ := createSession_shape st draws uuid now fuel st1 code uuid hc
  have hcode_none : mapGet st.CODE_TO_SESSION code = none := (mapHas_eq_false_iff _ _).1 hfree
  have hexp_self : mapGet st1.SESSION_EXPIRY uuid = some (now + CODE_EXPIRY_MS) := by
    rw [hshape]; exact mapGet_mapSet_self _ _ _
  have hexp_other : ∀ (s : String), s ≠ uuid →
      mapGet st1.SESSION_EXPIRY s = mapGet st.SESSION_EXPIRY s := by
    intro s hs
    rw [hshape]; exact mapGet_mapSet_other _ _ _ _ hs
  have hupl : st1.UPLOAD_STORE = st.UPLOAD_STORE := by rw [hshape]
  have hno_old : ∀ (c : String), mapGet st.CODE_TO_SESSION c ≠ some uuid := by
    intro c hcu
    exact (hval uuid).1 ⟨c, hcu⟩ hfresh
  have hto_uuid : ∀ (c : String), mapGet st1.CODE_TO_SESSION c = some uuid → c = code := by
    intro c hcu
    by_contra hne
    rw [hother c hne] at hcu
    exact hno_old c hcu
  refine ⟨hnd1 hnd, ?_, ?_, ?_⟩
  · intro c1 c2 s h1 h2
    by_cases hs : s = uuid
    · subst hs
      rw [hto_uuid c1 h1, hto_uuid c2 h2]
    · have hc1 : c1 ≠ code := by
        intro he
        subst he
        rw [hself] at h1
        injection h1 with h1
        exact hs h1.symm
      have hc2 : c2 ≠ code := by
        intro he
        subst he
        rw [hself] at h2
        injection h2 with h2
        exact hs h2.symm
      rw [hother c1 hc1] at h1
      rw [hother c2 hc2] at h2
      exact hinj c1 c2 s h1 h2
  · intro s
    by_cases hs : s = uuid
    · subst hs
      constructor
      · intro _; rw [hexp_self]; simp
      · intro _; exact ⟨code, hself⟩
    · rw [hexp_other s hs]
      constructor
      · rintro ⟨c, hcs⟩
        have hcne : c ≠ code := by
          intro he
          subst he
          rw [hself] at hcs
          injection hcs with hcs
          exact hs hcs.symm
        rw [hother c hcne] at hcs
        exact (hval s).1 ⟨c, hcs⟩
      · intro hne
        obtain ⟨c, hcs⟩ := (hval s).2 hne
        have hcne : c ≠ code := by
          intro he
          subst he
          rw [hcode_none] at hcs
          cases hcs
        exact ⟨c, by rw [hother c hcne]; exact hcs⟩
  · intro s hs
    rw [hupl] at hs
    by_cases hsu : s = uuid
    · subst hsu; rw [hexp_self]; simp
    · rw [hexp_other s hsu]; exact hup s hs

theorem storeInv_of_upload (st st1 : State) (h : StoreInv st)
    (hreg : registryOf st1 = registryOf st)
    (hu : st1.UPLOAD_STORE = st.UPLOAD_STORE ∨
      ∃ (S : String) (blob : Blob) (now : Nat),
        expiredAt (mapGet st.SESSION_EXPIRY S) now = false ∧
        st1.UPLOAD_STORE = mapSet st.UPLOAD_STORE S blob) : StoreInv st1 := by
  obtain ⟨hnd, hinj, hval, hup⟩ := h
  have h1 : st1.CODE_TO_SESSION = st.CODE_TO_SESSION := congrArg Prod.fst hreg
  have h2 : st1.SESSION_EXPIRY = st.SESSION_EXPIRY := congrArg Prod.snd hreg
  unfold StoreInv
  rw [h1, h2]
  refine ⟨hnd, hinj, hval, ?_⟩
  intro s hs
  rcases hu with hu | ⟨S, blob, now, hl, hu⟩
  · rw [hu] at hs; exact hup s hs
  · rw [hu] at hs
    by_cases hsS : s = S
    · subst hsS; exact expiredAt_false_ne_none _ now hl
    · rw [mapGet_mapSet_other _ _ _ _ hsS] at hs
      exact hup s hs

/-- What a reaction does to the registry and to the blob store. -/
theorem step_stores (b64 : String → List Nat) (st st1 : State) (e : Event)
    (h : step b64 st e = some st1) :
    (registryOf st1 = registryOf st ∧
      (st1.UPLOAD_STORE = st.UPLOAD_STORE ∨
        ∃ (S : String) (blob : Blob) (now : Nat),
          expiredAt (mapGet st.SESSION_EXPIRY S) now = false ∧
          st1.UPLOAD_STORE = mapSet st.UPLOAD_STORE S blob)) ∨
    (∃ (draws : Nat → Nat) (uuid : String) (now fuel : Nat) (code : String),
      e = Event.session (some "create") draws uuid now fuel ∧
      createSession st draws uuid now fuel = some (st1, code, uuid)) ∨
    (∃ (now : Nat), st1 = cleanExpired st now) := by
  cases e with
  | session action draws uuid now fuel =>
    simp only [step, postSession] at h
    by_cases ha : action ≠ some "create"
    · rw [if_pos ha] at h
      simp at h
      subst h; exact Or.inl ⟨rfl, Or.inl rfl⟩
    · rw [if_neg ha] at h
      have ha2 : action = some "create" := by
        by_contra hh; exact ha hh
      subst ha2
      cases hc : createSession st draws uuid now fuel with
      | none => rw [hc] at h; simp at h
      | some r =>
        obtain ⟨s2, code, sid⟩ := r
        rw [hc] at h
        simp at h
        subst h
        obtain ⟨-, hu⟩ := createSession_shape st draws uuid now fuel s2 code sid hc
        subst hu
        exact Or.inr (Or.inl ⟨draws, sid, now, fuel, code, rfl, hc⟩)
  | resolve code now1 now2 =>
    simp only [step, Option.some.injEq] at h
    subst h; rw [resolve_fst]; exact Or.inl ⟨rfl, Or.inl rfl⟩
  | upload req now =>
    simp only [step, Option.some.injEq] at h
    subst h
    obtain ⟨h1, h2, -⟩ := postUpload_frame b64 st req now
    left
    refine ⟨by unfold registryOf; rw [h1, h2], ?_⟩
    rcases postUpload_store b64 st req now with hs | ⟨S, blob, hl, hs⟩
    · exact Or.inl hs
    · exact Or.inr ⟨S, blob, now, hl, hs⟩
  | download sessionId =>
    simp only [step, Option.some.injEq] at h
    subst h; rw [download_fst]; exact Or.inl ⟨rfl, Or.inl rfl⟩
  | sweep now =>
    simp only [step, Option.some.injEq] at h
    exact Or.inr (Or.inr ⟨now, h.symm⟩)
  | upgrade pathname sessionId handshakeOk now =>
    simp only [step, Option.some.injEq] at h
    subst h
    obtain ⟨h1, h2, h3⟩ := upgrade_frame st pathname sessionId handshakeOk now
    exact Or.inl ⟨by unfold registryOf; rw [h1, h2], Or.inl h3⟩
  | message ws parsed =>
    simp only [step, Option.some.injEq] at h
    subst h
    split_ifs
    · exact Or.inl ⟨rfl, Or.inl rfl⟩
    · obtain ⟨h1, h2, h3, -⟩ := onMessage_frame st ws parsed
      exact Or.inl ⟨by unfold registryOf; rw [h1, h2], Or.inl h3⟩
  | closing ws =>
    simp only [step, Option.some.injEq] at h
    subst h
    split_ifs
    · obtain ⟨h1, h2, h3, -⟩ := startClosing_frame st ws
      exact Or.inl ⟨by unfold registryOf; rw [h1, h2], Or.inl h3⟩
    · exact Or.inl ⟨rfl, Or.inl rfl⟩
  | close ws =>
    simp only [step, Option.some.injEq] at h
    subst h
    split_ifs
    · exact Or.inl ⟨rfl, Or.inl rfl⟩
    · obtain ⟨h1, h2, h3⟩ := onClose_frame st ws
      exact Or.inl ⟨by unfold registryOf; rw [h1, h2], Or.inl h3⟩

theorem storeInv_step (b64 : String → List Nat) (st st1 : State) (e : Event)
    (hinv : StoreInv st) (hfresh : e.uuidFresh st) (h : step b64 st e = some st1) :
    StoreInv st1 := by
  rcases step_stores b64 st st1 e h with ⟨hreg, hu⟩ | ⟨draws, uuid, now, fuel, code, he, hc⟩ |
    ⟨now, hsw⟩
  · exact storeInv_of_upload st st1 hinv hreg hu
  · subst he
    exact storeInv_create st st1 draws uuid now fuel code hinv (hfresh rfl) hc
  · subst hsw; exact storeInv_sweep st now hinv

/-- With the invariant, every session that has an expiry entry or a blob is
the value of an entry of `CODE_TO_SESSION`, so the loop of `cleanExpired`
visits it; if it is expired the sweep removes all of it. -/
theorem storeInv_sweep_reaches (st : State) (hinv : StoreInv st) (now : Nat) (s : String)
    (h : mapGet st.SESSION_EXPIRY s ≠ none ∨ mapGet st.UPLOAD_STORE s ≠ none) :
    (∃ (c : String), (c, s) ∈ st.CODE_TO_SESSION) ∧
    (expiredAt (mapGet st.SESSION_EXPIRY s) now = true → Dead (cleanExpired st now) s) := by
  obtain ⟨hnd, hinj, hval, hup⟩ := hinv
  have hexp : mapGet st.SESSION_EXPIRY s ≠ none := by
    rcases h with h | h
    · exact h
    · exact hup s h
  obtain ⟨c0, hc0⟩ := (hval s).2 hexp
  refine ⟨⟨c0, mem_of_mapGet _ _ _ hc0⟩, ?_⟩
  intro hx
  obtain ⟨-, h2, h3, h4⟩ :=
    sweepFold_removes now st.CODE_TO_SESSION st c0 s (mem_of_mapGet _ _ _ hc0) hx
  refine ⟨?_, h2, h3, h4⟩
  intro c hc
  obtain ⟨-, -, hlive⟩ := cleanExpired_code_survives st now c s hc
  rw [hx] at hlive
  cases hlive

/-! ## Properties -/

/-- C1: whenever `createSession` returns, its code is a string of exactly four
decimal digits that was not a key of `CODE_TO_SESSION` before the call; after
the call the code is bound to the returned session id, every other code keeps
the binding it had, and the keys of the map stay pairwise distinct. -/
theorem createSession_code_fresh (st : State) (draws : Nat → Nat) (uuid : String)
    (now fuel : Nat) (st1 : State) (code sessionId : String)
    (h : createSession st draws uuid now fuel = some (st1, code, sessionId)) :
    isFourDigits code ∧ mapHas st.CODE_TO_SESSION code = false ∧
      mapGet st1.CODE_TO_SESSION code = some sessionId ∧
      (∀ c, c ≠ code → mapGet st1.CODE_TO_SESSION c = mapGet st.CODE_TO_SESSION c) ∧
      ((st.CODE_TO_SESSION.map Prod.fst).Nodup → (st1.CODE_TO_SESSION.map Prod.fst).Nodup) := by
  unfold createSession at h
  cases hp : pickCode st.CODE_TO_SESSION draws fuel 0 with
  | none => rw [hp] at h; simp at h
  | some c =>
    rw [hp] at h
    simp only [Option.some.injEq, Prod.mk.injEq] at h
    obtain ⟨hst, hc, hs⟩ := h
    subst hst hc hs
    obtain ⟨hfree, j, hj⟩ := pickCode_spec _ _ _ _ _ hp
    refine ⟨?_, hfree, mapGet_mapSet_self _ _ _, ?_, ?_⟩
    · rw [hj]; exact generateCode_fourDigits _
    · intro c' hne; exact mapGet_mapSet_other _ _ _ _ hne
    · intro hnd; exact mapSet_keys_nodup _ _ _ hnd

/-- Witness of C1: code `1000` is bound; the first draw gives `1000` again and is retried, the second gives `5500`. -/
theorem createSession_code_fresh_witness :
    isFourDigits "5500" ∧
    mapHas ({ State.init with
              CODE_TO_SESSION := [("1000", "s1")]
              SESSION_EXPIRY := [("s1", 900000)] } : State).CODE_TO_SESSION "5500" = false ∧
    mapHas ({ State.init with
              CODE_TO_SESSION := [("1000", "s1")]
              SESSION_EXPIRY := [("s1", 900000)] } : State).CODE_TO_SESSION
      (generateCode 0) = true :=
  let r := createSession_code_fresh
    { State.init with
      CODE_TO_SESSION := [("1000", "s1")]
      SESSION_EXPIRY := [("s1", 900000)] }
    (fun i => if i = 0 then 0 else 2 ^ 52) "s2" 7 2
    { State.init with
      CODE_TO_SESSION := [("1000", "s1"), ("5500", "s2")]
      SESSION_EXPIRY := [("s1", 900000), ("s2", 900007)] } "5500" "s2" (by rfl)
  ⟨r.1, r.2.1, by rfl⟩

/-- C2: in every reachable state, a resolve of a code that is not bound answers
404 without a session id; a resolve of a code bound to a session whose expiry
lies strictly before the clock reading answers 410 without a session id, and
it still fails after `cleanExpired` has run at any time: 404 when the sweep has
unbound the code, 410 when the code is still bound. -/
theorem resolve_expired_fails (b64 : String → List Nat) (st : State) (hr : Reachable b64 st)
    (code : String) (now1 now2 : Nat) :
    (mapGet st.CODE_TO_SESSION code = none →
      (resolve st (some code) now1 now2).2.status = 404 ∧
      (resolve st (some code) now1 now2).2.sessionId = none) ∧
    (∀ sid exp, mapGet st.CODE_TO_SESSION code = some sid →
      mapGet st.SESSION_EXPIRY sid = some exp → exp < now1 →
      ((resolve st (some code) now1 now2).2.status = 410 ∧
        (resolve st (some code) now1 now2).2.sessionId = none) ∧
      ∀ t, (resolve (cleanExpired st t) (some code) now1 now2).2.sessionId = none ∧
        ((mapGet (cleanExpired st t).CODE_TO_SESSION code = none ∧
            (resolve (cleanExpired st t) (some code) now1 now2).2.status = 404) ∨
         (mapGet (cleanExpired st t).CODE_TO_SESSION code = some sid ∧
            (resolve (cleanExpired st t) (some code) now1 now2).2.status = 410))) := by
  constructor
  · intro h
    rw [resolve_unbound st code now1 now2 h]
    exact ⟨rfl, rfl⟩
  · intro sid exp hb he hlt
    have hne : code ≠ "" :=
      fourDigits_ne_empty code (reachable_codesWellFormed b64 st hr code (by rw [hb]; simp))
    have hexp : expiredAt (some exp) now1 = true := by simp [expiredAt, hlt]
    constructor
    · rw [resolve_bound st code sid now1 now2 hne hb, he, if_pos hexp]
      exact ⟨rfl, rfl⟩
    · intro t
      obtain ⟨h1, h2, -⟩ := sweepFold_monotone t st.CODE_TO_SESSION st
      rcases h1 code with hc | hc
      · have hc2 : mapGet (cleanExpired st t).CODE_TO_SESSION code = none := hc
        rw [resolve_unbound _ code now1 now2 hc2]
        exact ⟨rfl, Or.inl ⟨hc2, rfl⟩⟩
      · have hc2 : mapGet (cleanExpired st t).CODE_TO_SESSION code = some sid := by
          rw [← hb]; exact hc
        have hx : expiredAt (mapGet (cleanExpired st t).SESSION_EXPIRY sid) now1 = true := by
          rcases h2 sid with hs | hs
          · have hs2 : mapGet (cleanExpired st t).SESSION_EXPIRY sid = none := hs
            rw [hs2]; rfl
          · have hs2 : mapGet (cleanExpired st t).SESSION_EXPIRY sid = some exp := by
              rw [← he]; exact hs
            rw [hs2]; exact hexp
        rw [resolve_bound _ code sid now1 now2 hne hc2, if_pos hx]
        exact ⟨rfl, Or.inr ⟨hc2, rfl⟩⟩

/-- Witness of C2: a session created at time 5 with code `1000`, resolved at time 900006. -/
theorem resolve_expired_fails_witness :
    (resolve { State.init with
        CODE_TO_SESSION := [("1000", "s1")]
        SESSION_EXPIRY := [("s1", 900005)] } (some "1000") 900006 900006).2.status = 410 :=
  ((resolve_expired_fails (fun _ => [])
      { State.init with
        CODE_TO_SESSION := [("1000", "s1")]
        SESSION_EXPIRY := [("s1", 900005)] }
      ⟨[Event.session (some "create") (fun _ => 0) "s1" 5 1], rfl⟩
      "1000" 900006 900006).2 "s1" 900005 rfl rfl (by decide)).1.1

/-- C3 (amended): for a live session `S`, a non-empty filename of well-formed
Unicode, a MIME field
that is absent, empty or a header value, and a non-empty payload of at most
`MAX_BYTES` bytes sent as its base64 text in a request body within the limit of
the body parser, the upload answers 200 with the size of the payload, and a
download of `S` right after it returns exactly the supplied bytes, with
`Content-Type` equal to the supplied MIME type when it is non-empty and to
`application/octet-stream` otherwise, and with the URL-encoded filename in
`Content-Disposition`.  The decoder is any function that decodes base64
texts exactly. -/
theorem upload_download_roundtrip (b64 : String → List Nat)
    (hb64 : ∀ (p : List Nat), (∀ (b : Nat), b ∈ p → b < 256) → b64 (base64Encode p) = p)
    (st : State) (bodyBytes now : Nat) (S filename : String) (mime : Option String)
    (payload : List Nat) (hbytes : ∀ (b : Nat), b ∈ payload → b < 256) (hne : payload ≠ [])
    (hbody : bodyBytes ≤ BODY_LIMIT) (hS : S ≠ "") (hf : filename ≠ "")
    (hmime : ∀ (m : String), mime = some m → headerValueOk m = true)
    (hlive : expiredAt (mapGet st.SESSION_EXPIRY S) now = false)
    (hsize : payload.length ≤ MAX_BYTES) :
    (postUpload b64 st
      ⟨bodyBytes, ⟨some S, some filename, mime, some (base64Encode payload)⟩⟩ now).2 =
      .ok payload.length ∧
    (download (postUpload b64 st
      ⟨bodyBytes, ⟨some S, some filename, mime, some (base64Encode payload)⟩⟩ now).1 S).2 =
      .file (if jsFalsy mime then "application/octet-stream" else mime.getD "")
        (contentDisposition filename) payload := by
  have hdec : b64 (base64Encode payload) = payload := hb64 payload hbytes
  have hb : ¬ bodyBytes > BODY_LIMIT := by omega
  have hu := uploadHandler_ok b64 st now S filename (base64Encode payload) mime hS hf
    (base64Encode_ne_empty payload hne) hlive (by rw [hdec]; exact hsize)
  have hp : postUpload b64 st
      ⟨bodyBytes, ⟨some S, some filename, mime, some (base64Encode payload)⟩⟩ now =
      uploadHandler b64 st ⟨some S, some filename, mime, some (base64Encode payload)⟩ now := by
    simp only [postUpload, hb, if_false]
  have hok : headerValueOk
      (if jsFalsy mime then "application/octet-stream" else mime.getD "") = true := by
    by_cases hj : jsFalsy mime = true
    · rw [if_pos hj]; exact headerValueOk_default
    · rw [if_neg hj]
      cases mime with
      | none => exact absurd rfl hj
      | some m => exact hmime m rfl
  rw [hp, hu, hdec]
  refine ⟨rfl, ?_⟩
  simp only [download, mapGet_mapSet_self, hok, if_true]

/-- Witness of C3 (amended): the three bytes of `hi!` uploaded to a session that expires at 900005. -/
theorem upload_download_roundtrip_witness :
    (download (postUpload base64Decode
      { State.init with
        CODE_TO_SESSION := [("1000", "s1")]
        SESSION_EXPIRY := [("s1", 900005)] }
      ⟨100, ⟨some "s1", some "a.bin", some "text/plain",
        some (base64Encode [104, 105, 33])⟩⟩ 10).1 "s1").2 =
      .file "text/plain" (contentDisposition "a.bin") [104, 105, 33] :=
  (upload_download_roundtrip base64Decode base64Decode_encode
      { State.init with
        CODE_TO_SESSION := [("1000", "s1")]
        SESSION_EXPIRY := [("s1", 900005)] }
      100 10 "s1" "a.bin" (some "text/plain") [104, 105, 33]
      (by decide) (by decide) (by decide) (by decide) (by decide)
      (fun m hm => by
        injection hm with hm
        subst hm
        decide)
      rfl (by decide)).2

/-- Counterexample to C3 as stated: a three-byte payload is uploaded to a live
session with the MIME type the browser gives a file of unknown type, the empty
string; the upload succeeds and the download returns the bytes, but its
`Content-Type` is `application/octet-stream`, not the supplied MIME type. -/
theorem upload_download_roundtrip_counterexample :
    (postUpload base64Decode
      { State.init with
        CODE_TO_SESSION := [("1000", "s1")]
        SESSION_EXPIRY := [("s1", 900005)] }
      ⟨100, ⟨some "s1", some "a.bin", some "", some "AAAA"⟩⟩ 10).2 = .ok 3 ∧
    (download (postUpload base64Decode
      { State.init with
        CODE_TO_SESSION := [("1000", "s1")]
        SESSION_EXPIRY := [("s1", 900005)] }
      ⟨100, ⟨some "s1", some "a.bin", some "", some "AAAA"⟩⟩ 10).1 "s1").2 =
      .file "application/octet-stream" (contentDisposition "a.bin") [0, 0, 0] ∧
    (download (postUpload base64Decode
      { State.init with
        CODE_TO_SESSION := [("1000", "s1")]
        SESSION_EXPIRY := [("s1", 900005)] }
      ⟨100, ⟨some "s1", some "a.bin", some "", some "AAAA"⟩⟩ 10).1 "s1").2.contentType ≠
      some "" := by
  refine ⟨rfl, rfl, ?_⟩
  decide

/-- C4: for a live session `S` and an upload to `S` whose decoded payload is
longer than `MAX_BYTES`, the route answers 413 and leaves the whole state as it
was, so a download of any session returns what it returned before (the stored
blob, or 404 when there is none); and the handler itself, run on such a body
with a filename, answers 413 and leaves the state as it was. -/
theorem upload_oversize_rejected (b64 : String → List Nat)
    (hb64 : ∀ s, 4 * (b64 s).length ≤ 3 * s.length) (st : State) (req : UploadRequest)
    (now : Nat) (S d : String) (hwf : req.wellFormed)
    (hS : req.body.sessionId = some S) (hne : S ≠ "")
    (hlive : expiredAt (mapGet st.SESSION_EXPIRY S) now = false)
    (hd : req.body.dataB64 = some d) (hbig : MAX_BYTES < (b64 d).length) :
    (postUpload b64 st req now).2.status = 413 ∧
    (postUpload b64 st req now).1 = st ∧
    (∀ s, (download (postUpload b64 st req now).1 s).2 = (download st s).2) ∧
    (jsFalsy req.body.filename = false →
      uploadHandler b64 st req.body now = (st, .tooLarge) ∧
      UploadResponse.tooLarge.status = 413) := by
  have hp : postUpload b64 st req now = (st, .entityTooLarge) := by
    apply postUpload_parser_rejects b64 hb64 st req now d hwf hd
    have : MAX_BYTES = 5242880 := by decide
    have : BODY_LIMIT = 6291456 := by decide
    omega
  rw [hp]
  refine ⟨rfl, rfl, fun _ => rfl, ?_⟩
  intro hf
  exact ⟨uploadHandler_tooLarge b64 hb64 st now req.body S d hS hd hne hf hlive hbig, rfl⟩

/-- Witness of C4: a base64 text of 6990512 characters, which decodes to 5242884 bytes. -/
theorem upload_oversize_rejected_witness :
    (postUpload base64Decode
      { State.init with
        CODE_TO_SESSION := [("1000", "s1")]
        SESSION_EXPIRY := [("s1", 900005)] }
      ⟨7000000, ⟨some "s1", some "a.bin", none,
        some (String.mk (List.replicate (4 * 1747628) 'A'))⟩⟩ 10).2.status = 413 :=
  (upload_oversize_rejected base64Decode base64Decode_bound
      { State.init with
        CODE_TO_SESSION := [("1000", "s1")]
        SESSION_EXPIRY := [("s1", 900005)] }
      ⟨7000000, ⟨some "s1", some "a.bin", none,
        some (String.mk (List.replicate (4 * 1747628) 'A'))⟩⟩ 10 "s1"
      (String.mk (List.replicate (4 * 1747628) 'A'))
      (by
        intro d hd
        simp only [Option.some.injEq] at hd
        subst hd
        show (List.replicate (4 * 1747628) 'A').length ≤ 7000000
        rw [List.length_replicate]
        decide)
      rfl (by decide) rfl rfl
      (by rw [base64Decode_replicate]; decide)).1

/-- C5 (amended): in every reachable state, when client `A` sends a frame that
parses to a message whose `type` is one of `offer`, `answer`, `candidate`,
`ready`, and the session of `A` still has a peer set registered in
`SESSION_TO_PEERS`, the parsed message is handed once to `send` of every member
of that set other than `A` whose transport is open, and nothing else changes:
a member `B` other than `A` with an open transport gets the message appended
to what it was sent, and `A` gets nothing. -/
theorem relay_delivers (b64 : String → List Nat) (st : State) (hr : Reachable b64 st)
    (A : Nat) (cA : Conn) (msg : Json) (p : Nat)
    (hA : st.conns[A]? = some cA) (hsig : isSignal (msgType msg) = true)
    (hp : mapGet st.SESSION_TO_PEERS cA.sessionId = some p) :
    (∀ (W : Nat), (onMessage st A (some msg)).conns[W]? =
      (st.conns[W]?).map (fun c =>
        if W ∈ st.sets.getD p [] ∧ W ≠ A ∧ c.readyState = 1 then received msg c else c)) ∧
    (∀ (B : Nat) (cB : Conn), st.conns[B]? = some cB → B ∈ st.sets.getD p [] → B ≠ A →
      cB.readyState = 1 →
      (onMessage st A (some msg)).conns[B]? = some { cB with sent := cB.sent ++ [msg] }) ∧
    (onMessage st A (some msg)).conns[A]? = some cA := by
  have hnd : (st.sets.getD p []).Nodup := by
    rw [List.getD_eq_getElem?_getD]
    cases hs : st.sets[p]? with
    | none => exact List.nodup_nil
    | some l => exact (reachable_relayInv b64 st hr).1 p l hs
  have hA2 : st.conns.get? A = some cA := by rw [List.get?_eq_getElem?]; exact hA
  have hconns : (onMessage st A (some msg)).conns =
      (st.sets.getD p []).foldl (deliver msg A) st.conns := by
    simp only [onMessage, hA2, hsig, if_true, broadcast, hp]
  have key : ∀ (W : Nat), (onMessage st A (some msg)).conns[W]? =
      (st.conns[W]?).map (fun c =>
        if W ∈ st.sets.getD p [] ∧ W ≠ A ∧ c.readyState = 1 then received msg c else c) := by
    intro W
    rw [hconns]
    exact foldl_deliver_get msg A _ hnd st.conns W
  refine ⟨key, ?_, ?_⟩
  · intro B cB hB hmem hne hopen
    rw [key B, hB]
    simp only [Option.map_some', Option.some.injEq]
    rw [if_pos ⟨hmem, hne, hopen⟩]
    rfl
  · rw [key A, hA]
    simp

/-- Witness of C5 (amended): two clients admitted to the session of code `1000`; client 0 sends an offer. -/
theorem relay_delivers_witness :
    (onMessage
      { CODE_TO_SESSION := [("1000", "s1")], SESSION_TO_PEERS := [("s1", 0)],
        SESSION_EXPIRY := [("s1", 900000)], UPLOAD_STORE := [], sets := [[0, 1]],
        conns := [{ sessionId := "s1", peers := 0, readyState := 1, sent := [] },
                  { sessionId := "s1", peers := 0, readyState := 1, sent := [] }] }
      0 (some (.obj [("type", .str "offer")]))).conns[0]? =
      some { sessionId := "s1", peers := 0, readyState := 1, sent := [] } :=
  (relay_delivers base64Decode
      { CODE_TO_SESSION := [("1000", "s1")], SESSION_TO_PEERS := [("s1", 0)],
        SESSION_EXPIRY := [("s1", 900000)], UPLOAD_STORE := [], sets := [[0, 1]],
        conns := [{ sessionId := "s1", peers := 0, readyState := 1, sent := [] },
                  { sessionId := "s1", peers := 0, readyState := 1, sent := [] }] }
      ⟨[Event.session (some "create") (fun _ => 0) "s1" 0 1,
        Event.upgrade "/ws" (some "s1") true 1,
        Event.upgrade "/ws" (some "s1") true 2], rfl⟩
      0 { sessionId := "s1", peers := 0, readyState := 1, sent := [] }
      (.obj [("type", .str "offer")]) 0 rfl rfl rfl).2.2

/-- Counterexample to C5 as stated: clients 0 and 1 are admitted to the session
of code `1000`, both transports stay open, the session expires and is swept,
and client 0 then sends an offer: nothing is handed to `send` of client 1. -/
theorem relay_delivers_counterexample :
    (run base64Decode State.init
      [Event.session (some "create") (fun _ => 0) "s1" 0 1,
       Event.upgrade "/ws" (some "s1") true 1,
       Event.upgrade "/ws" (some "s1") true 2,
       Event.sweep 900001,
       Event.message 0 (some (.obj [("type", .str "offer")]))]).map
      (fun st => st.conns.map (fun c => (c.sessionId, c.readyState, c.sent.length))) =
      some [("s1", 1, 0), ("s1", 1, 0)] := by
  rfl

/-- C6: in every reachable state, once the `close` handler of client `W` has
run, then after any further reactions `W` is in no set of the heap, hence in
no set stored in `SESSION_TO_PEERS`; nothing more has been handed to `send` of
`W` (the client is exactly as the handler left it), and no broadcast, for any
session, message and sender, sends anything to `W`. -/
theorem closed_client_receives_nothing (b64 : String → List Nat) (st : State)
    (hr : Reachable b64 st) (W : Nat) (hW : readyStateOf st W ≠ 3)
    (es : List Event) (st2 : State) (hrun : run b64 (onClose st W) es = some st2) :
    (∀ (i : Nat) (l : List Nat), st2.sets[i]? = some l → W ∉ l) ∧
    (∀ (s : String) (p : Nat), mapGet st2.SESSION_TO_PEERS s = some p →
      W ∉ st2.sets.getD p []) ∧
    st2.conns[W]? = (onClose st W).conns[W]? ∧
    (∀ (s : String) (msg : Json) (ex : Nat),
      (broadcast st2 s msg ex).conns[W]? = st2.conns[W]?) := by
  have hinv := reachable_relayInv b64 st hr
  unfold readyStateOf at hW
  cases hc : st.conns.get? W with
  | none => rw [hc] at hW; simp at hW
  | some c =>
    rw [hc] at hW
    have hc2 : st.conns[W]? = some c := by rw [← List.get?_eq_getElem?]; exact hc
    have hlt : W < st.conns.length := by
      rcases Nat.lt_or_ge W st.conns.length with h4 | h4
      · exact h4
      · rw [List.getElem?_eq_none h4] at hc2; cases hc2
    have hsets : (onClose st W).sets =
        st.sets.set c.peers (setDelete W (st.sets.getD c.peers [])) := by
      simp only [onClose, hc]
    have hconns : (onClose st W).conns = st.conns.set W { c with readyState := 3 } := by
      simp only [onClose, hc]
    have hinv1 : RelayInv (onClose st W) := by
      unfold RelayInv
      rw [hsets, hconns]
      exact (relayInvOn_close st.sets st.conns W c hinv hc2).1
    have hcW : (onClose st W).conns[W]? = some { c with readyState := 3 } := by
      rw [hconns]; exact List.getElem?_set_self hlt
    obtain ⟨hinv2, hc3⟩ := run_closed_unchanged b64 es (onClose st W) st2 W _ hinv1 hcW rfl hrun
    have hnot := closed_not_member st2 hinv2 W _ hc3 rfl
    have hnotD : ∀ (p : Nat), W ∉ st2.sets.getD p [] := by
      intro p hm
      obtain ⟨l0, h1, h2⟩ := getD_mem st2.sets p W hm
      exact hnot p l0 h1 h2
    refine ⟨hnot, fun s p _ => hnotD p, by rw [hc3, hcW], ?_⟩
    intro s msg ex
    unfold broadcast
    cases hp : mapGet st2.SESSION_TO_PEERS s with
    | none => rfl
    | some p => exact foldl_deliver_not_mem msg ex _ st2.conns W (hnotD p)

/-- Witness of C6: client 1 closes, then client 0 sends an offer. -/
theorem closed_client_receives_nothing_witness :
    (onMessage (onClose
      { CODE_TO_SESSION := [("1000", "s1")], SESSION_TO_PEERS := [("s1", 0)],
        SESSION_EXPIRY := [("s1", 900000)], UPLOAD_STORE := [], sets := [[0, 1]],
        conns := [{ sessionId := "s1", peers := 0, readyState := 1, sent := [] },
                  { sessionId := "s1", peers := 0, readyState := 1, sent := [] }] } 1)
      0 (some (.obj [("type", .str "offer")]))).conns[1]? =
      some { sessionId := "s1", peers := 0, readyState := 3, sent := [] } :=
  (closed_client_receives_nothing base64Decode
      { CODE_TO_SESSION := [("1000", "s1")], SESSION_TO_PEERS := [("s1", 0)],
        SESSION_EXPIRY := [("s1", 900000)], UPLOAD_STORE := [], sets := [[0, 1]],
        conns := [{ sessionId := "s1", peers := 0, readyState := 1, sent := [] },
                  { sessionId := "s1", peers := 0, readyState := 1, sent := [] }] }
      ⟨[Event.session (some "create") (fun _ => 0) "s1" 0 1,
        Event.upgrade "/ws" (some "s1") true 1,
        Event.upgrade "/ws" (some "s1") true 2], rfl⟩
      1 (by decide)
      [Event.message 0 (some (.obj [("type", .str "offer")]))] _ rfl).2.2.1

/-- C7: in every reachable state, a run of `cleanExpired` at time `now`
removes, for every session whose expiry is strictly before `now`, every code
bound to it, its expiry entry, its peer set and its blob; and after any
further reactions in which `uuidv4()` does not return that session id again,
no resolve returns that session, a WebSocket upgrade naming it is destroyed
and registers nothing, and a download of it answers 404. -/
theorem sweep_removes_session (b64 : String → List Nat) (st : State) (hr : Reachable b64 st)
    (now : Nat) (sid : String) (exp : Nat)
    (he : mapGet st.SESSION_EXPIRY sid = some exp) (hlt : exp < now) :
    ((∀ (c : String), mapGet (cleanExpired st now).CODE_TO_SESSION c ≠ some sid) ∧
      mapGet (cleanExpired st now).SESSION_EXPIRY sid = none ∧
      mapGet (cleanExpired st now).SESSION_TO_PEERS sid = none ∧
      mapGet (cleanExpired st now).UPLOAD_STORE sid = none) ∧
    ∀ (es : List Event) (st2 : State), (∀ (e : Event), e ∈ es → ¬ e.issues sid) →
      run b64 (cleanExpired st now) es = some st2 →
      (∀ (code : Option String) (now1 now2 : Nat),
        (resolve st2 code now1 now2).2.sessionId ≠ some sid) ∧
      (∀ (handshakeOk : Bool) (t : Nat),
        (upgrade st2 "/ws" (some sid) handshakeOk t).2 = .destroyed ∧
        (upgrade st2 "/ws" (some sid) handshakeOk t).1 = st2) ∧
      (download st2 sid).2 = .notFound := by
  have hinv := reachable_registryInv b64 st hr
  have hx : expiredAt (mapGet st.SESSION_EXPIRY sid) now = true := by
    rw [he]; simp [expiredAt, hlt]
  obtain ⟨c0, hc0⟩ := hinv.2 sid (by rw [he]; simp)
  have hdead : Dead (cleanExpired st now) sid := by
    obtain ⟨-, h2, h3, h4⟩ :=
      sweepFold_removes now st.CODE_TO_SESSION st c0 sid (mem_of_mapGet _ _ _ hc0) hx
    refine ⟨?_, h2, h3, h4⟩
    intro c hc
    have hmono := (sweepFold_monotone now st.CODE_TO_SESSION st).1 c
    have hc1 : mapGet st.CODE_TO_SESSION c = some sid := by
      rcases hmono with hh | hh
      · unfold cleanExpired at hc; rw [hh] at hc; cases hc
      · unfold cleanExpired at hc; rw [hh] at hc; exact hc
    have := (sweepFold_removes now st.CODE_TO_SESSION st c sid (mem_of_mapGet _ _ _ hc1) hx).1
    unfold cleanExpired at hc
    rw [this] at hc
    cases hc
  refine ⟨hdead, ?_⟩
  intro es st2 hne hrun
  exact dead_denied st2 sid (run_dead b64 es _ st2 sid hdead hne hrun)

/-- Witness of C7: the session created at time 0 is swept at time 900001. -/
theorem sweep_removes_session_witness :
    mapGet (cleanExpired
      { State.init with
        CODE_TO_SESSION := [("1000", "s1")]
        SESSION_EXPIRY := [("s1", 900000)] } 900001).SESSION_EXPIRY "s1" = none :=
  (sweep_removes_session base64Decode
      { State.init with
        CODE_TO_SESSION := [("1000", "s1")]
        SESSION_EXPIRY := [("s1", 900000)] }
      ⟨[Event.session (some "create") (fun _ => 0) "s1" 0 1], rfl⟩
      900001 "s1" 900000 rfl (by decide)).1.2.1

/-- C8 (amended): `createSession` returns exactly when some draw yields a code
that is not bound.  If draw number `n` is the first one whose code is free, the
loop ends after `n + 1` iterations and the call returns that code (and has not
returned before); if every draw yields a bound code the loop is still running
after any number of iterations.  There is no bound on the retries and no
resource-exhausted result. -/
theorem createSession_returns_iff_free_draw (st : State) (draws : Nat → Nat) (uuid : String)
    (now : Nat) :
    (∀ (n : Nat), mapHas st.CODE_TO_SESSION (generateCode (draws n)) = false →
      (∀ (j : Nat), j < n → mapHas st.CODE_TO_SESSION (generateCode (draws j)) = true) →
      (∀ (fuel : Nat), n < fuel →
        createSession st draws uuid now fuel =
          some ({ st with
                  CODE_TO_SESSION := mapSet st.CODE_TO_SESSION (generateCode (draws n)) uuid
                  SESSION_EXPIRY := mapSet st.SESSION_EXPIRY uuid (now + CODE_EXPIRY_MS) },
                generateCode (draws n), uuid)) ∧
      (∀ (fuel : Nat), fuel ≤ n → createSession st draws uuid now fuel = none)) ∧
    ((∀ (j : Nat), mapHas st.CODE_TO_SESSION (generateCode (draws j)) = true) →
      ∀ (fuel : Nat), createSession st draws uuid now fuel = none) := by
  constructor
  · intro n hfree hb
    constructor
    · intro fuel hf
      unfold createSession
      rw [pickCode_first_free st.CODE_TO_SESSION draws n hfree fuel 0 (Nat.zero_le n)
        (fun j _ h2 => hb j h2) (by omega)]
    · intro fuel hf
      unfold createSession
      rw [pickCode_all_bound st.CODE_TO_SESSION draws fuel 0 (fun j _ h2 => hb j (by omega))]
  · intro hb fuel
    unfold createSession
    rw [pickCode_all_bound st.CODE_TO_SESSION draws fuel 0 (fun j _ _ => hb j)]

/-- Witness of C8 (amended): code `1000` is bound, the draws give `1000`, `1000`, then `5500`. -/
theorem createSession_returns_iff_free_draw_witness :
    (createSession
      { State.init with
        CODE_TO_SESSION := [("1000", "s1")]
        SESSION_EXPIRY := [("s1", 900000)] }
      (fun i => if i < 2 then 0 else 2 ^ 52) "s2" 7 3).map (fun r => r.2.1) = some "5500" ∧
    createSession
      { State.init with
        CODE_TO_SESSION := [("1000", "s1")]
        SESSION_EXPIRY := [("s1", 900000)] }
      (fun i => if i < 2 then 0 else 2 ^ 52) "s2" 7 2 = none :=
  let h := (createSession_returns_iff_free_draw
      { State.init with
        CODE_TO_SESSION := [("1000", "s1")]
        SESSION_EXPIRY := [("s1", 900000)] }
      (fun i => if i < 2 then 0 else 2 ^ 52) "s2" 7).1 2 (by decide)
      (fun j hj => by
        have hj2 : j = 0 ∨ j = 1 := by omega
        rcases hj2 with h0 | h0 <;> subst h0 <;> decide)
  ⟨by rw [h.1 3 (by decide)]; rfl, h.2 2 (le_refl 2)⟩

/-- Counterexample to C8 as stated: in the state where every code from `1000`
to `9999` is bound, no sequence of draws and no number of iterations makes
`createSession` return: it retries forever and never reports a failure. -/
theorem createSession_returns_iff_free_draw_counterexample :
    ¬ ∃ (draws : Nat → Nat) (uuid : String) (now fuel : Nat),
      (createSession fullState draws uuid now fuel).isSome = true := by
  rintro ⟨draws, uuid, now, fuel, h⟩
  have hnone : createSession fullState draws uuid now fuel = none := by
    have hb : ∀ (j : Nat), mapHas fullState.CODE_TO_SESSION (generateCode (draws j)) = true := by
      intro j
      rw [fullState_codes]
      exact fullCodes_has (draws j)
    unfold createSession
    rw [pickCode_all_bound fullState.CODE_TO_SESSION draws fuel 0 (fun j _ _ => hb j)]
  rw [hnone] at h
  cases h

/-- C9 (the code at the failing input): a session is created at time 0 and a
blob is uploaded to it at time 10; at time 900001 its expiry, 900000, lies
strictly before the clock and no sweep has run.  An upload to it answers 410
and an upgrade naming it is destroyed, but the download still returns the
blob with status 200. -/
theorem download_after_expiry_returns_blob :
    (run base64Decode State.init
      [Event.session (some "create") (fun _ => 0) "s1" 0 1,
       Event.upload ⟨100, ⟨some "s1", some "a.bin", some "text/plain", some "AAAA"⟩⟩ 10]).map
      (fun st =>
        (expiredAt (mapGet st.SESSION_EXPIRY "s1") 900001,
         (postUpload base64Decode st
            ⟨100, ⟨some "s1", some "b.bin", some "text/plain", some "AAAA"⟩⟩ 900001).2,
         (upgrade st "/ws" (some "s1") true 900001).2,
         (download st "s1").2,
         (download st "s1").2.status)) =
      some (true, .expired, .destroyed,
        .file "text/plain" (contentDisposition "a.bin") [0, 0, 0], 200) := by
  rfl

/-- C10: the resolve handler returns the state it was given, on every input;
and after `createSession` at time `t` has returned `(code, sessionId)`, then
after any number of resolves of any codes at any times, a resolve of `code`
whose clock readings lie between `t` and `t + 900000` answers 200 with that
`sessionId` and `expiresInSec = floor((t + 900000 - t') / 1000)`, which is
at most 900. -/
theorem resolve_idempotent (b64 : String → List Nat) (st : State) (draws : Nat → Nat)
    (uuid : String) (t fuel : Nat) (st1 : State) (code sessionId : String)
    (h : createSession st draws uuid t fuel = some (st1, code, sessionId)) :
    (∀ (s : State) (c : Option String) (n1 n2 : Nat), (resolve s c n1 n2).1 = s) ∧
    ∀ (rs : List (Option String × Nat × Nat)) (st2 : State),
      run b64 st1 (rs.map (fun r => Event.resolve r.1 r.2.1 r.2.2)) = some st2 →
      st2 = st1 ∧
      ∀ (n1 n2 : Nat), t ≤ n1 → n1 ≤ t + 900000 → t ≤ n2 → n2 ≤ t + 900000 →
        resolve st2 (some code) n1 n2 =
          (st2, .ok sessionId (((t + 900000 - n2) / 1000 : Nat) : Int)) ∧
        (t + 900000 - n2) / 1000 ≤ 900 := by
  refine ⟨fun s c n1 n2 => resolve_fst s c n1 n2, ?_⟩
  intro rs st2 hrun
  have hst : st2 = st1 := by
    induction rs generalizing st2 with
    | nil => simp [run] at hrun; exact hrun.symm
    | cons r rs ih =>
      simp only [List.map_cons, run, step, resolve_fst] at hrun
      exact ih st2 hrun
  subst hst
  refine ⟨rfl, ?_⟩
  intro n1 n2 h1 h2 h3 h4
  obtain ⟨hshape, hsid⟩ := createSession_shape st draws uuid t fuel st2 code sessionId h
  obtain ⟨h4d, -, hself, -, -⟩ := createSession_spec st draws uuid t fuel st2 code sessionId h
  have hne : code ≠ "" := fourDigits_ne_empty code h4d
  have hexp : mapGet st2.SESSION_EXPIRY sessionId = some (t + CODE_EXPIRY_MS) := by
    rw [hshape, hsid]; exact mapGet_mapSet_self _ _ _
  have hce : CODE_EXPIRY_MS = 900000 := by decide
  have hlive : expiredAt (some (t + CODE_EXPIRY_MS)) n1 = false := by
    simp [expiredAt, hce]; omega
  constructor
  · have hb := resolve_bound st2 code sessionId n1 n2 hne hself
    rw [hexp, hlive] at hb
    simp only [Bool.false_eq_true, if_false, Option.getD_some] at hb
    have hval : (((t + CODE_EXPIRY_MS : Nat) : Int) - (n2 : Int)) / 1000 =
        (((t + 900000 - n2) / 1000 : Nat) : Int) := by
      rw [hce]; omega
    rw [hval] at hb
    rw [← hb]
    exact Prod.ext (resolve_fst _ _ _ _) rfl
  · omega

/-- Witness of C10: the session created at time 5 with code `1000`, resolved at time 1005. -/
theorem resolve_idempotent_witness :
    resolve
      { State.init with
        CODE_TO_SESSION := [("1000", "s1")]
        SESSION_EXPIRY := [("s1", 900005)] } (some "1000") 1005 1005 =
      ({ State.init with
         CODE_TO_SESSION := [("1000", "s1")]
         SESSION_EXPIRY := [("s1", 900005)] }, .ok "s1" 899) :=
  ((resolve_idempotent base64Decode State.init (fun _ => 0) "s1" 5 1
      { State.init with
        CODE_TO_SESSION := [("1000", "s1")]
        SESSION_EXPIRY := [("s1", 900005)] } "1000" "s1" rfl).2
      [(some "1000", 6, 6), (none, 7, 7)] _ rfl).2 1005 1005
      (by decide) (by decide) (by decide) (by decide) |>.1

/-- C11: the invariant of the stores (the keys of `CODE_TO_SESSION` are
distinct, `CODE_TO_SESSION` is injective, its values are exactly the keys of
`SESSION_EXPIRY`, every key of `UPLOAD_STORE` is a key of `SESSION_EXPIRY`)
holds initially and is kept by `createSession` when `uuidv4()` returns an
identifier that has no expiry entry, by resolve, upload, download,
`cleanExpired`, the admission of a connection, the `message` handler and the
`close` handler, hence by every reaction.  With the invariant, every session
that has an expiry entry or a blob is the value of an entry of
`CODE_TO_SESSION`, so `cleanExpired` visits it, and if it is expired one sweep
leaves no code, expiry entry, peer set or blob of it. -/
theorem stores_invariant_preserved (b64 : String → List Nat) (st : State) (hinv : StoreInv st) :
    StoreInv State.init ∧
    (∀ (draws : Nat → Nat) (uuid : String) (now fuel : Nat) (st1 : State)
        (code sessionId : String),
      mapGet st.SESSION_EXPIRY uuid = none →
      createSession st draws uuid now fuel = some (st1, code, sessionId) → StoreInv st1) ∧
    (∀ (code : Option String) (now1 now2 : Nat), StoreInv (resolve st code now1 now2).1) ∧
    (∀ (body : UploadBody) (now : Nat), StoreInv (uploadHandler b64 st body now).1) ∧
    (∀ (sessionId : String), StoreInv (download st sessionId).1) ∧
    (∀ (now : Nat), StoreInv (cleanExpired st now)) ∧
    (∀ (sessionId : String), StoreInv (connection st sessionId).1) ∧
    (∀ (ws : Nat) (parsed : Option Json), StoreInv (onMessage st ws parsed)) ∧
    (∀ (ws : Nat), StoreInv (onClose st ws)) ∧
    (∀ (e : Event) (st1 : State), e.uuidFresh st → step b64 st e = some st1 → StoreInv st1) ∧
    (∀ (now : Nat) (s : String),
      mapGet st.SESSION_EXPIRY s ≠ none ∨ mapGet st.UPLOAD_STORE s ≠ none →
      (∃ (c : String), (c, s) ∈ st.CODE_TO_SESSION) ∧
      (expiredAt (mapGet st.SESSION_EXPIRY s) now = true → Dead (cleanExpired st now) s)) := by
  refine ⟨storeInv_init, ?_, ?_, ?_, ?_, ?_, ?_, ?_, ?_, ?_, ?_⟩
  · intro draws uuid now fuel st1 code sessionId hfresh hc
    obtain ⟨-, hu⟩ := createSession_shape st draws uuid now fuel st1 code sessionId hc
    subst hu
    exact storeInv_create st st1 draws sessionId now fuel code hinv hfresh hc
  · intro code now1 now2
    rw [resolve_fst]; exact hinv
  · intro body now
    obtain ⟨h1, h2, -⟩ := uploadHandler_frame b64 st body now
    apply storeInv_of_upload st _ hinv (by unfold registryOf; rw [h1, h2])
    rcases uploadHandler_store b64 st body now with hs | ⟨S, blob, hl, hs⟩
    · exact Or.inl hs
    · exact Or.inr ⟨S, blob, now, hl, hs⟩
  · intro sessionId
    rw [download_fst]; exact hinv
  · intro now
    exact storeInv_sweep st now hinv
  · intro sessionId
    obtain ⟨h1, h2, h3⟩ := connection_frame st sessionId
    exact storeInv_of_upload st _ hinv (by unfold registryOf; rw [h1, h2]) (Or.inl h3)
  · intro ws parsed
    obtain ⟨h1, h2, h3, -⟩ := onMessage_frame st ws parsed
    exact storeInv_of_upload st _ hinv (by unfold registryOf; rw [h1, h2]) (Or.inl h3)
  · intro ws
    obtain ⟨h1, h2, h3⟩ := onClose_frame st ws
    exact storeInv_of_upload st _ hinv (by unfold registryOf; rw [h1, h2]) (Or.inl h3)
  · intro e st1 hfresh hs
    exact storeInv_step b64 st st1 e hinv hfresh hs
  · intro now s h
    exact storeInv_sweep_reaches st hinv now s h

/-- Witness of C11: from the initial state, a session is created with a fresh identifier. -/
theorem stores_invariant_preserved_witness :
    StoreInv
      { State.init with
        CODE_TO_SESSION := [("1000", "s1")]
        SESSION_EXPIRY := [("s1", 900005)] } :=
  (stores_invariant_preserved base64Decode State.init storeInv_init).2.1
    (fun _ => 0) "s1" 5 1
    { State.init with
      CODE_TO_SESSION := [("1000", "s1")]
      SESSION_EXPIRY := [("s1", 900005)] } "1000" "s1" rfl rfl

end FileShare
